import Mathlib

/-!
A2D: the matrix-vector multiply expression node, the scalar dual-number type, the
command-line parser and the constructor of the finite-element model.

A shallow embedding of `include/ad/a2dmatvecmult.h` (class `MatVecMultExpr`) and
of the numeric kernels it calls, together with the properties of its phases
`eval`, `forward`, `reverse` and `hreverse`; of `include/adscalar.h` (class `ADScalar`);
of `include/utils/a2dparser.h` (class `ArgumentParser`); and of the array-taking
constructor of `FEModel` in `examples/elasticity/model.h`.

Scalars live in an arbitrary commutative ring `R` (exact arithmetic).  Vector
data is a function `Nat → R` and matrix data a function `Nat → Nat → R`
(row index first); a kernel instantiated with extents `N`, `M` only reads and
writes entries inside those extents.
-/

namespace A2D

/-- Modelled from the spec: the enumeration `MatOp` is declared in `a2ddefs.h`, which is
not among the sources.  It is the transpose flag of a kernel or node; the source names
`MatOp::NORMAL` and `MatOp::TRANSPOSE`. -/
inductive MatOp where
  | NORMAL
  | TRANSPOSE
  deriving DecidableEq

/-- Modelled from the spec: the enumeration `ADiffType` is declared in `a2ddefs.h`, which
is not among the sources.  An operand is active (differentiable) or passive (held
constant); the source names `ADiffType::ACTIVE`. -/
inductive ADiffType where
  | PASSIVE
  | ACTIVE
  deriving DecidableEq

/-- Modelled from the spec: the enumeration `ADorder` is declared in `a2ddefs.h`, which is
not among the sources.  It is the differentiation order of an operand or of a forward
phase; the source names `ADorder::FIRST` and `ADorder::SECOND`. -/
inductive ADorder where
  | FIRST
  | SECOND
  deriving DecidableEq

/-- Modelled from the spec: the enumeration `ADseed` is declared in `a2ddefs.h`, which is
not among the sources.  It names the derivative slot `GetSeed<seed>` selects; the source
names `ADseed::b`, `ADseed::p` and `ADseed::h`. -/
inductive ADseed where
  | b
  | p
  | h
  deriving DecidableEq

/-- Modelled from the spec: the operand types (`ADObj`, `A2DObj`) are not among the
sources.  An operand wraps a value plus an adjoint slot `b`, a tangent-direction
slot `p` and a second-order slot `h`, all of the shape of the value.  A first-order
operand uses `value` and `bvalue` only, a plain (passive) operand `value` only. -/
structure A2DObj (D : Type) where
  value : D
  bvalue : D
  pvalue : D
  hvalue : D

/-- Modelled from the spec: `get_data(obj)` of an operand is the data of its value. -/
def get_data {D : Type} (obj : A2DObj D) : D :=
  obj.value

/-- Modelled from the spec: `GetSeed<seed>::get_data(obj)` is the data of the
derivative slot of `obj` that `seed` names. -/
def GetSeed.get_data {D : Type} (seed : ADseed) (obj : A2DObj D) : D :=
  match seed with
  | ADseed.b => obj.bvalue
  | ADseed.p => obj.pvalue
  | ADseed.h => obj.hvalue

/-- Modelled from the spec: the operand `obj` after a kernel has stored `d` through
the reference `GetSeed<seed>::get_data(obj)`. -/
def GetSeed.put_data {D : Type} (seed : ADseed) (obj : A2DObj D) (d : D) : A2DObj D :=
  match seed with
  | ADseed.b => ⟨obj.value, d, obj.pvalue, obj.hvalue⟩
  | ADseed.p => ⟨obj.value, obj.bvalue, d, obj.hvalue⟩
  | ADseed.h => ⟨obj.value, obj.bvalue, obj.pvalue, d⟩

/-- Modelled from the spec: the kernel `MatVecCore<T, N, M, op, additive>(A, x, y)` of
`ad/core/a2dmatveccore.h`, which is not among the sources.  `multiply(A, x, y)`
computes `y = op(A)·x` for an `N × M` matrix, `op` the identity or the transpose; the
additive variant computes `y += op(A)·x`.  The result is the content of `y` after the
call; entries outside the extent of the output are not written. -/
def MatVecCore {R : Type} [CommRing R] (N M : Nat) (op : MatOp) (additive : Bool)
    (A : Nat → Nat → R) (x y : Nat → R) : Nat → R :=
  fun k =>
    match op with
    | MatOp.NORMAL =>
      if k < N then
        (if additive then y k else 0) + ∑ j ∈ Finset.range M, A k j * x j
      else y k
    | MatOp.TRANSPOSE =>
      if k < M then
        (if additive then y k else 0) + ∑ i ∈ Finset.range N, A i k * x i
      else y k

/-- Modelled from the spec: the kernel `VecOuterCore<T, N, M, additive>(u, v, A)`, which
is not among the sources.  `outer(u, v, A)` computes `A = u·vᵀ` for an `N × M` matrix;
the additive variant accumulates, `A += u·vᵀ`.  The result is the content of `A` after
the call; entries outside `N × M` are not written. -/
def VecOuterCore {R : Type} [CommRing R] (N M : Nat) (additive : Bool)
    (u v : Nat → R) (A : Nat → Nat → R) : Nat → Nat → R :=
  fun i j =>
    if i < N ∧ j < M then
      (if additive then A i j else 0) + u i * v j
    else A i j

/-- The three operands a `MatVecMultExpr` refers to: the matrix `A`, the input
vector `x` and the output vector `y`. -/
structure Operands (R : Type) where
  A : A2DObj (Nat → Nat → R)
  x : A2DObj (Nat → R)
  y : A2DObj (Nat → R)

/-- The compile-time parameters of `MatVecMultExpr<op, Atype, xtype, ytype>`: the
transpose flag, the extents of the matrix (`N` rows, `M` columns), of the input
vector (`K`) and of the output vector (`P`), the activity of the two inputs and the
differentiation order of the output. -/
structure MatVecMultExpr where
  op : MatOp
  N : Nat
  M : Nat
  K : Nat
  P : Nat
  adA : ADiffType
  adx : ADiffType
  order : ADorder

/-- The member `MatVecMultExpr::not_op`,
`conditional_value<MatOp, op == MatOp::NORMAL, MatOp::TRANSPOSE, MatOp::NORMAL>::value`:
`TRANSPOSE` when `op` is `NORMAL`, else `NORMAL`. -/
def MatVecMultExpr.not_op (e : MatVecMultExpr) : MatOp :=
  if e.op = MatOp.NORMAL then MatOp.TRANSPOSE else MatOp.NORMAL

/-- The condition of the `static_assert` in the constructor of `MatVecMultExpr` (and in
the plain `MatVecMult<op>`): matrix and vector dimensions must agree. -/
def dimensions_agree (op : MatOp) (N M K P : Nat) : Bool :=
  (op = MatOp.NORMAL && (M = K && N = P)) ||
    (op = MatOp.TRANSPOSE && (M = P && N = K))

/-- The method `MatVecMultExpr::eval`.  The call names no `additive` argument: it is the
overwriting variant of the kernel. -/
def MatVecMultExpr.eval {R : Type} [CommRing R] (e : MatVecMultExpr) (s : Operands R) :
    Operands R :=
  { s with
    y := { s.y with
      value := MatVecCore e.N e.M e.op false (get_data s.A) (get_data s.x) (get_data s.y) } }

/-- The constant `seed` of `MatVecMultExpr::forward<forder>`,
`conditional_value<ADseed, forder == ADorder::FIRST, ADseed::b, ADseed::p>::value`: the
channel `ADseed::b` for a first-order phase, `ADseed::p` otherwise. -/
def forward_seed (forder : ADorder) : ADseed :=
  if forder = ADorder.FIRST then ADseed.b else ADseed.p

/-- The method `MatVecMultExpr::forward<forder>`.  The `static_assert` rejects a
second-order forward phase on first-order operands: the result is `none` there. -/
def MatVecMultExpr.forward {R : Type} [CommRing R] (e : MatVecMultExpr) (forder : ADorder)
    (s : Operands R) : Option (Operands R) :=
  if e.order = ADorder.FIRST ∧ forder = ADorder.SECOND then none
  else
    let seed := forward_seed forder
    if e.adA = ADiffType.ACTIVE ∧ e.adx = ADiffType.ACTIVE then
      let additive := true
      let y1 := GetSeed.put_data seed s.y
        (MatVecCore e.N e.M e.op false (GetSeed.get_data seed s.A) (get_data s.x)
          (GetSeed.get_data seed s.y))
      some { s with
        y := GetSeed.put_data seed y1
          (MatVecCore e.N e.M e.op additive (get_data s.A) (GetSeed.get_data seed s.x)
            (GetSeed.get_data seed y1)) }
    else if e.adA = ADiffType.ACTIVE then
      some { s with
        y := GetSeed.put_data seed s.y
          (MatVecCore e.N e.M e.op false (GetSeed.get_data seed s.A) (get_data s.x)
            (GetSeed.get_data seed s.y)) }
    else if e.adx = ADiffType.ACTIVE then
      some { s with
        y := GetSeed.put_data seed s.y
          (MatVecCore e.N e.M e.op false (get_data s.A) (GetSeed.get_data seed s.x)
            (GetSeed.get_data seed s.y)) }
    else some s

/-- The method `MatVecMultExpr::reverse`. -/
def MatVecMultExpr.reverse {R : Type} [CommRing R] (e : MatVecMultExpr) (s : Operands R) :
    Operands R :=
  let additive := true
  let s1 : Operands R :=
    if e.adA = ADiffType.ACTIVE then
      if e.op = MatOp.NORMAL then
        { s with
          A := GetSeed.put_data ADseed.b s.A
            (VecOuterCore e.N e.M additive (GetSeed.get_data ADseed.b s.y) (get_data s.x)
              (GetSeed.get_data ADseed.b s.A)) }
      else
        { s with
          A := GetSeed.put_data ADseed.b s.A
            (VecOuterCore e.N e.M additive (get_data s.x) (GetSeed.get_data ADseed.b s.y)
              (GetSeed.get_data ADseed.b s.A)) }
    else s
  if e.adx = ADiffType.ACTIVE then
    { s1 with
      x := GetSeed.put_data ADseed.b s1.x
        (MatVecCore e.N e.M e.not_op additive (get_data s1.A) (GetSeed.get_data ADseed.b s1.y)
          (GetSeed.get_data ADseed.b s1.x)) }
  else s1

/-- The method `MatVecMultExpr::hreverse`. -/
def MatVecMultExpr.hreverse {R : Type} [CommRing R] (e : MatVecMultExpr) (s : Operands R) :
    Operands R :=
  let additive := true
  let s1 : Operands R :=
    if e.adA = ADiffType.ACTIVE then
      if e.op = MatOp.NORMAL then
        { s with
          A := GetSeed.put_data ADseed.h s.A
            (VecOuterCore e.N e.M additive (GetSeed.get_data ADseed.h s.y) (get_data s.x)
              (GetSeed.get_data ADseed.h s.A)) }
      else
        { s with
          A := GetSeed.put_data ADseed.h s.A
            (VecOuterCore e.N e.M additive (get_data s.x) (GetSeed.get_data ADseed.h s.y)
              (GetSeed.get_data ADseed.h s.A)) }
    else s
  let s2 : Operands R :=
    if e.adx = ADiffType.ACTIVE then
      { s1 with
        x := GetSeed.put_data ADseed.h s1.x
          (MatVecCore e.N e.M e.not_op additive (get_data s1.A)
            (GetSeed.get_data ADseed.h s1.y) (GetSeed.get_data ADseed.h s1.x)) }
    else s1
  if e.adA = ADiffType.ACTIVE ∧ e.adx = ADiffType.ACTIVE then
    let s3 : Operands R :=
      if e.op = MatOp.NORMAL then
        { s2 with
          A := GetSeed.put_data ADseed.h s2.A
            (VecOuterCore e.N e.M additive (GetSeed.get_data ADseed.b s2.y)
              (GetSeed.get_data ADseed.p s2.x) (GetSeed.get_data ADseed.h s2.A)) }
      else
        { s2 with
          A := GetSeed.put_data ADseed.h s2.A
            (VecOuterCore e.N e.M additive (GetSeed.get_data ADseed.p s2.x)
              (GetSeed.get_data ADseed.b s2.y) (GetSeed.get_data ADseed.h s2.A)) }
    { s3 with
      x := GetSeed.put_data ADseed.h s3.x
        (MatVecCore e.N e.M e.not_op additive (GetSeed.get_data ADseed.p s3.A)
          (GetSeed.get_data ADseed.b s3.y) (GetSeed.get_data ADseed.h s3.x)) }
  else s2

/-- Sample operands over the integers: `A_ij = 2·i + j + 1` (so `[[1, 2], [3, 4]]` as a
`2 × 2` matrix and `[[1, 2, 3], [3, 4, 5]]` as a `2 × 3` matrix), `x = (5, 6)`, and small
distinct entries in every derivative slot: `A.b_ij = i - j`, `A.p_ij = i + 2·j`,
`A.h_ij = 3·i - j`, `x.b = (1, 3)`, `x.p = (3, 2)`, `x.h = (7, 8)`, `y.b_k = k + 2`,
`y.p_k = 4·k + 1`, `y.h_k = 2 - 3·k`. -/
def sampleOperands : Operands Int where
  A := ⟨fun i j => 2 * (i : Int) + j + 1, fun i j => (i : Int) - j, fun i j => (i : Int) + 2 * j,
    fun i j => 3 * (i : Int) - j⟩
  x := ⟨fun j => (j : Int) + 5, fun j => 2 * (j : Int) + 1, fun j => 3 - (j : Int), fun j => (j : Int) + 7⟩
  y := ⟨fun i => 9 - (i : Int), fun i => (i : Int) + 2, fun i => 4 * (i : Int) + 1, fun i => 2 - 3 * (i : Int)⟩

/-- Sample operands as a derivative test sets them up: the values and tangents of
`sampleOperands`, the adjoint seed `ȳ = (2, 3, 4)` and the second-order seed
`ŷ = (2, -1, -4)` in `y`, and the b- and h-slots of `A` and `x` at zero. -/
def sampleSeeded : Operands Int where
  A := ⟨sampleOperands.A.value, fun _ _ => 0, sampleOperands.A.pvalue, fun _ _ => 0⟩
  x := ⟨sampleOperands.x.value, fun _ => 0, sampleOperands.x.pvalue, fun _ => 0⟩
  y := sampleOperands.y

/-- The operands with the values of `A` and `x` moved by `t` along their tangents (the
p-slots): `A + t·Ȧ` and `x + t·ẋ`; every derivative slot and `y` are kept. -/
def Operands.shift {R : Type} [CommRing R] (s : Operands R) (t : R) : Operands R :=
  { s with
    A := { s.A with value := fun i j => s.A.value i j + t * s.A.pvalue i j }
    x := { s.x with value := fun k => s.x.value k + t * s.x.pvalue k } }

/-- The operands with the second-order seed of `y` (its h-slot) placed in the adjoint
slot of `y` (its b-slot); everything else is kept. -/
def Operands.seed_h {R : Type} (s : Operands R) : Operands R :=
  { s with y := { s.y with bvalue := s.y.hvalue } }

/-- What `reverse` adds to entry `(i, j)` of the b-slot of `A`. -/
def MatVecMultExpr.reverse_increment_A {R : Type} [CommRing R] (e : MatVecMultExpr)
    (s : Operands R) (i j : Nat) : R :=
  (e.reverse s).A.bvalue i j - s.A.bvalue i j

/-- What `reverse` adds to entry `k` of the b-slot of `x`. -/
def MatVecMultExpr.reverse_increment_x {R : Type} [CommRing R] (e : MatVecMultExpr)
    (s : Operands R) (k : Nat) : R :=
  (e.reverse s).x.bvalue k - s.x.bvalue k

/-- What `hreverse` adds to entry `(i, j)` of the h-slot of `A`. -/
def MatVecMultExpr.hreverse_increment_A {R : Type} [CommRing R] (e : MatVecMultExpr)
    (s : Operands R) (i j : Nat) : R :=
  (e.hreverse s).A.hvalue i j - s.A.hvalue i j

/-- What `hreverse` adds to entry `k` of the h-slot of `x`. -/
def MatVecMultExpr.hreverse_increment_x {R : Type} [CommRing R] (e : MatVecMultExpr)
    (s : Operands R) (k : Nat) : R :=
  (e.hreverse s).x.hvalue k - s.x.hvalue k

/-- The operand with its b-slot and its p-slot exchanged. -/
def A2DObj.swap_bp {D : Type} (obj : A2DObj D) : A2DObj D :=
  ⟨obj.value, obj.pvalue, obj.bvalue, obj.hvalue⟩

/-- The operands with the b-slot and the p-slot exchanged in each of `A`, `x` and `y`. -/
def Operands.swap_bp {R : Type} (s : Operands R) : Operands R :=
  ⟨s.A.swap_bp, s.x.swap_bp, s.y.swap_bp⟩

/-- The operands with the h-slots of `A`, `x` and `y` replaced by `Ah`, `xh` and `yh`. -/
def Operands.with_h {R : Type} (s : Operands R) (Ah : Nat → Nat → R) (xh yh : Nat → R) :
    Operands R :=
  ⟨{ s.A with hvalue := Ah }, { s.x with hvalue := xh }, { s.y with hvalue := yh }⟩

/-- The node `e` with only `A` active: `x` is declared passive. -/
def MatVecMultExpr.only_A (e : MatVecMultExpr) : MatVecMultExpr :=
  { e with adx := ADiffType.PASSIVE }

/-- The node `e` with only `x` active: `A` is declared passive. -/
def MatVecMultExpr.only_x (e : MatVecMultExpr) : MatVecMultExpr :=
  { e with adA := ADiffType.PASSIVE }

/-- The constructor `MatVecMultExpr(A, x, y)`: its `static_assert` accepts the operand
types only when the dimensions agree; a rejected instantiation is `none`. -/
def MatVecMultExpr.construct (op : MatOp) (N M K P : Nat) (adA adx : ADiffType)
    (order : ADorder) : Option MatVecMultExpr :=
  if dimensions_agree op N M K P then some ⟨op, N, M, K, P, adA, adx, order⟩ else none

/-- The plain function `MatVecMult<op>(A, x, y)` on a `Mat<T, N, M>`, a `Vec<T, K>` and a
`Vec<T, P>`: behind the same `static_assert` it runs the overwriting kernel; the result
is the content of `y` after the call, `none` for a rejected instantiation. -/
def MatVecMult {R : Type} [CommRing R] (op : MatOp) (N M K P : Nat) (A : Nat → Nat → R)
    (x y : Nat → R) : Option (Nat → R) :=
  if dimensions_agree op N M K P then some (MatVecCore N M op false A x y) else none

/-- The node used in the concrete checks: `y = A·x` with a `2 × 2` matrix, both
inputs active, second-order operands. -/
def sampleNormal : MatVecMultExpr :=
  ⟨MatOp.NORMAL, 2, 2, 2, 2, ADiffType.ACTIVE, ADiffType.ACTIVE, ADorder.SECOND⟩

/-- The node used in the concrete checks of the transpose mode: `y = Aᵀ·x` with a
`2 × 3` matrix (`x` has 2 entries, `y` has 3), both inputs active, second-order operands. -/
def sampleTranspose : MatVecMultExpr :=
  ⟨MatOp.TRANSPOSE, 2, 3, 2, 3, ADiffType.ACTIVE, ADiffType.ACTIVE, ADorder.SECOND⟩

/-- The operands of two composed nodes `n1 : y = A·x` and `n2 : z = B·y`, which share
the vector `y`. -/
structure ChainOperands (R : Type) where
  A : A2DObj (Nat → Nat → R)
  x : A2DObj (Nat → R)
  y : A2DObj (Nat → R)
  B : A2DObj (Nat → Nat → R)
  z : A2DObj (Nat → R)

/-- The operands the first node refers to: `A`, `x` and its output `y`. -/
def ChainOperands.first {R : Type} (c : ChainOperands R) : Operands R :=
  ⟨c.A, c.x, c.y⟩

/-- The operands the second node refers to: `B`, its input `y` and its output `z`. -/
def ChainOperands.second {R : Type} (c : ChainOperands R) : Operands R :=
  ⟨c.B, c.y, c.z⟩

/-- The chain after a phase of the first node has left its operands as `s`. -/
def ChainOperands.put_first {R : Type} (c : ChainOperands R) (s : Operands R) :
    ChainOperands R :=
  { c with A := s.A, x := s.x, y := s.y }

/-- The chain after a phase of the second node has left its operands as `s`. -/
def ChainOperands.put_second {R : Type} (c : ChainOperands R) (s : Operands R) :
    ChainOperands R :=
  { c with B := s.A, y := s.x, z := s.y }

/-- Modelled from the spec: the stack of `a2dstack.h` is not among the sources.
Composition evaluates every node at once, in composition order: first `n1`, then `n2`. -/
def ChainOperands.evaluate {R : Type} [CommRing R] (n1 n2 : MatVecMultExpr)
    (c : ChainOperands R) : ChainOperands R :=
  let c1 := c.put_first (n1.eval c.first)
  c1.put_second (n2.eval c1.second)

/-- Modelled from the spec: the stack of `a2dstack.h` is not among the sources.  The
reverse sweep runs the reverse phase of every node in reverse composition order: first
`n2.reverse`, then `n1.reverse`. -/
def ChainOperands.reverse_sweep {R : Type} [CommRing R] (n1 n2 : MatVecMultExpr)
    (c : ChainOperands R) : ChainOperands R :=
  let c1 := c.put_second (n2.reverse c.second)
  c1.put_first (n1.reverse c1.first)

/-- Sample operands of a chain over the integers: `A = [[1, 2], [3, 4]]`, `x = (5, 6)`,
`B = [[1, 0], [2, 1], [0, 3]]`, the adjoint seed `z̄ = (1, 2, 3)` in the b-slot of `z`, and
every other derivative slot at zero. -/
def sampleChain : ChainOperands Int where
  A := ⟨fun i j => 2 * (i : Int) + j + 1, fun _ _ => 0, fun _ _ => 0, fun _ _ => 0⟩
  x := ⟨fun j => (j : Int) + 5, fun _ => 0, fun _ => 0, fun _ => 0⟩
  y := ⟨fun _ => 0, fun _ => 0, fun _ => 0, fun _ => 0⟩
  B := ⟨fun l i => if l = 0 then (if i = 0 then 1 else 0)
      else if l = 1 then (if i = 0 then 2 else 1) else (if i = 0 then 0 else 3),
    fun _ _ => 0, fun _ _ => 0, fun _ _ => 0⟩
  z := ⟨fun _ => 0, fun l => (l : Int) + 1, fun _ => 0, fun _ => 0⟩

/-! ## The scalar dual-number type of `include/adscalar.h`

The functions of `<cmath>` the file calls on plain scalars (`sqrt`, `pow`, `exp`, `sin`,
`cos`) belong to the standard library; each embedded function takes the ones it calls as
arguments.  The literals `1.0` and `0.5` are the field elements `1` and `1 / 2`. -/

/-- The class `ADScalar<T, N>`: a value and an array `deriv` of `N` tangent components. -/
structure ADScalar (T : Type) (N : Nat) where
  value : T
  deriv : Fin N → T

/-- The constructor `ADScalar(const R value)`: the value, and `deriv{0.0}`, an array of
zeros. -/
def ADScalar.from_value {T : Type} [Zero T] {N : Nat} (value : T) : ADScalar T N :=
  ⟨value, fun _ => 0⟩

/-- The member `operator<(const ADScalar<X, M> &rhs)`. -/
def ADScalar.lt {T : Type} [LinearOrder T] {N M : Nat} (l : ADScalar T N)
    (rhs : ADScalar T M) : Bool :=
  decide (l.value < rhs.value)

/-- The member `operator<=(const ADScalar<X, M> &rhs)`. -/
def ADScalar.le {T : Type} [LinearOrder T] {N M : Nat} (l : ADScalar T N)
    (rhs : ADScalar T M) : Bool :=
  decide (l.value ≤ rhs.value)

/-- The member `operator>(const ADScalar<X, M> &rhs)`. -/
def ADScalar.gt {T : Type} [LinearOrder T] {N M : Nat} (l : ADScalar T N)
    (rhs : ADScalar T M) : Bool :=
  decide (l.value > rhs.value)

/-- The member `operator>=(const ADScalar<X, M> &rhs)`. -/
def ADScalar.ge {T : Type} [LinearOrder T] {N M : Nat} (l : ADScalar T N)
    (rhs : ADScalar T M) : Bool :=
  decide (l.value ≥ rhs.value)

/-- The member `operator<(const R &rhs)` for a plain scalar `rhs`. -/
def ADScalar.lt_scalar {T : Type} [LinearOrder T] {N : Nat} (l : ADScalar T N) (rhs : T) :
    Bool :=
  decide (l.value < rhs)

/-- The member `operator<=(const R &rhs)` for a plain scalar `rhs`. -/
def ADScalar.le_scalar {T : Type} [LinearOrder T] {N : Nat} (l : ADScalar T N) (rhs : T) :
    Bool :=
  decide (l.value ≤ rhs)

/-- The member `operator>(const R &rhs)` for a plain scalar `rhs`. -/
def ADScalar.gt_scalar {T : Type} [LinearOrder T] {N : Nat} (l : ADScalar T N) (rhs : T) :
    Bool :=
  decide (l.value > rhs)

/-- The member `operator>=(const R &rhs)` for a plain scalar `rhs`. -/
def ADScalar.ge_scalar {T : Type} [LinearOrder T] {N : Nat} (l : ADScalar T N) (rhs : T) :
    Bool :=
  decide (l.value ≥ rhs)

/-- The function `operator+(ADScalar, ADScalar)`: `out` is built from the sum of the
values and the loop sets every tangent. -/
def ADScalar.add {X : Type} [CommRing X] {M : Nat} (l r : ADScalar X M) : ADScalar X M :=
  { (ADScalar.from_value (l.value + r.value) : ADScalar X M) with
    deriv := fun i => l.deriv i + r.deriv i }

/-- The function `operator+(const L &l, ADScalar r)` for a plain scalar `l`. -/
def ADScalar.scalar_add {X : Type} [CommRing X] {M : Nat} (l : X) (r : ADScalar X M) :
    ADScalar X M :=
  ADScalar.mk (r.value + l) r.deriv

/-- The function `operator+(ADScalar l, const R &r)` for a plain scalar `r`. -/
def ADScalar.add_scalar {X : Type} [CommRing X] {M : Nat} (l : ADScalar X M) (r : X) :
    ADScalar X M :=
  ADScalar.mk (l.value + r) l.deriv

/-- The function `operator-(ADScalar, ADScalar)`. -/
def ADScalar.sub {X : Type} [CommRing X] {M : Nat} (l r : ADScalar X M) : ADScalar X M :=
  { (ADScalar.from_value (l.value - r.value) : ADScalar X M) with
    deriv := fun i => l.deriv i - r.deriv i }

/-- The function `operator-(const L &l, ADScalar r)` for a plain scalar `l`. -/
def ADScalar.scalar_sub {X : Type} [CommRing X] {M : Nat} (l : X) (r : ADScalar X M) :
    ADScalar X M :=
  { (ADScalar.from_value (l - r.value) : ADScalar X M) with
    deriv := fun i => -r.deriv i }

/-- The function `operator-(ADScalar l, const R &r)` for a plain scalar `r`. -/
def ADScalar.sub_scalar {X : Type} [CommRing X] {M : Nat} (l : ADScalar X M) (r : X) :
    ADScalar X M :=
  ADScalar.mk (l.value - r) l.deriv

/-- The function `operator*(ADScalar, ADScalar)`. -/
def ADScalar.mul {X : Type} [CommRing X] {M : Nat} (l r : ADScalar X M) : ADScalar X M :=
  { (ADScalar.from_value (l.value * r.value) : ADScalar X M) with
    deriv := fun i => r.value * l.deriv i + r.deriv i * l.value }

/-- The function `operator*(const L &l, ADScalar r)` for a plain scalar `l`. -/
def ADScalar.scalar_mul {X : Type} [CommRing X] {M : Nat} (l : X) (r : ADScalar X M) :
    ADScalar X M :=
  { (ADScalar.from_value (l * r.value) : ADScalar X M) with
    deriv := fun i => r.deriv i * l }

/-- The function `operator*(ADScalar l, const R &r)` for a plain scalar `r`. -/
def ADScalar.mul_scalar {X : Type} [CommRing X] {M : Nat} (l : ADScalar X M) (r : X) :
    ADScalar X M :=
  { (ADScalar.from_value (l.value * r) : ADScalar X M) with
    deriv := fun i => l.deriv i * r }

/-- The function `operator/(ADScalar, ADScalar)`. -/
def ADScalar.div {X : Type} [Field X] {M : Nat} (l r : ADScalar X M) : ADScalar X M :=
  let inv : X := 1 / r.value
  let inv2 : X := l.value * inv * inv
  { (ADScalar.from_value (inv * l.value) : ADScalar X M) with
    deriv := fun i => inv * l.deriv i - inv2 * r.deriv i }

/-- The function `operator/(const L &l, ADScalar r)` for a plain scalar `l`. -/
def ADScalar.scalar_div {X : Type} [Field X] {M : Nat} (l : X) (r : ADScalar X M) :
    ADScalar X M :=
  let inv : X := 1 / r.value
  let inv2 : X := l * inv * inv
  { (ADScalar.from_value (inv * l) : ADScalar X M) with
    deriv := fun i => -inv2 * r.deriv i }

/-- The function `operator/(ADScalar l, const R &r)` for a plain scalar `r`. -/
def ADScalar.div_scalar {X : Type} [Field X] {M : Nat} (l : ADScalar X M) (r : X) :
    ADScalar X M :=
  let inv : X := 1 / r
  { (ADScalar.from_value (inv * l.value) : ADScalar X M) with
    deriv := fun i => inv * l.deriv i }

/-- The function `sqrt(ADScalar)`; `sqrtX` is the `sqrt` of the scalar type. -/
def ADScalar.sqrt {X : Type} [Field X] {M : Nat} (sqrtX : X → X) (r : ADScalar X M) :
    ADScalar X M :=
  let value : X := sqrtX r.value
  let inv : X := (1 / 2) / value
  { (ADScalar.from_value value : ADScalar X M) with deriv := fun i => inv * r.deriv i }

/-- The function `pow(ADScalar r, const R &exponent)`; `powX` is the `pow` of the scalar
type with an exponent of type `E`, and `toX` the conversion of the exponent in
`exponent * value`. -/
def ADScalar.pow {X E : Type} [Field X] {M : Nat} (powX : X → E → X) (toX : E → X)
    (r : ADScalar X M) (exponent : E) : ADScalar X M :=
  let value : X := powX r.value exponent
  let inv : X := toX exponent * value / r.value
  { (ADScalar.from_value value : ADScalar X M) with deriv := fun i => inv * r.deriv i }

/-- The function `exp(ADScalar)`; `expX` is the `exp` of the scalar type. -/
def ADScalar.exp {X : Type} [Field X] {M : Nat} (expX : X → X) (r : ADScalar X M) :
    ADScalar X M :=
  let value : X := expX r.value
  { (ADScalar.from_value value : ADScalar X M) with deriv := fun i => value * r.deriv i }

/-- The local `out` of `sin(ADScalar)` when control reaches the end of the body: built
from `sin(r.value)`, with the tangents `d * r.deriv[i]` for `d = cos(r.value)`. -/
def ADScalar.sin_out {X : Type} [Field X] {M : Nat} (sinX cosX : X → X) (r : ADScalar X M) :
    ADScalar X M :=
  let d : X := cosX r.value
  { (ADScalar.from_value (sinX r.value) : ADScalar X M) with deriv := fun i => d * r.deriv i }

/-- The function `sin(ADScalar)`.  Its body builds `out` and ends at the closing brace:
there is no `return` statement, so the call yields no value, `none`. -/
def ADScalar.sin {X : Type} [Field X] {M : Nat} (sinX cosX : X → X) (r : ADScalar X M) :
    Option (ADScalar X M) :=
  let _out : ADScalar X M := ADScalar.sin_out sinX cosX r
  none

/-- The local `out` of `cos(ADScalar)` when control reaches the end of the body: built
from `cos(r.value)`, with the tangents `d * r.deriv[i]` for `d = -sin(r.value)`. -/
def ADScalar.cos_out {X : Type} [Field X] {M : Nat} (sinX cosX : X → X) (r : ADScalar X M) :
    ADScalar X M :=
  let d : X := -sinX r.value
  { (ADScalar.from_value (cosX r.value) : ADScalar X M) with deriv := fun i => d * r.deriv i }

/-- The function `cos(ADScalar)`.  Its body builds `out` and ends at the closing brace:
there is no `return` statement, so the call yields no value, `none`. -/
def ADScalar.cos {X : Type} [Field X] {M : Nat} (sinX cosX : X → X) (r : ADScalar X M) :
    Option (ADScalar X M) :=
  let _out : ADScalar X M := ADScalar.cos_out sinX cosX r
  none

/-- The function `fabs(ADScalar)`; `fabsX` is the `fabs` of the scalar type. -/
def ADScalar.fabs {X : Type} [LinearOrderedField X] {M : Nat} (fabsX : X → X)
    (r : ADScalar X M) : ADScalar X M :=
  let scalar : X := if r.value < 0 then -1 else 1
  { (ADScalar.from_value (fabsX r.value) : ADScalar X M) with
    deriv := fun i => scalar * r.deriv i }

/-- The member `operator=(const R &r)` for a plain scalar `r`: the object after it. -/
def ADScalar.assign_scalar {T : Type} [Zero T] {N : Nat} (_self : ADScalar T N) (r : T) :
    ADScalar T N :=
  ⟨r, fun _ => 0⟩

/-- The member `operator+=(const ADScalar &r)`: the object after the update. -/
def ADScalar.add_assign {T : Type} [CommRing T] {N : Nat} (self r : ADScalar T N) :
    ADScalar T N :=
  let self1 : ADScalar T N := { self with value := self.value + r.value }
  { self1 with deriv := fun i => self1.deriv i + r.deriv i }

/-- The member `operator+=(const R &r)` for a plain scalar `r`. -/
def ADScalar.add_assign_scalar {T : Type} [CommRing T] {N : Nat} (self : ADScalar T N)
    (r : T) : ADScalar T N :=
  { self with value := self.value + r }

/-- The member `operator-=(const ADScalar &r)`: the object after the update. -/
def ADScalar.sub_assign {T : Type} [CommRing T] {N : Nat} (self r : ADScalar T N) :
    ADScalar T N :=
  let self1 : ADScalar T N := { self with value := self.value - r.value }
  { self1 with deriv := fun i => self1.deriv i - r.deriv i }

/-- The member `operator-=(const R &r)` for a plain scalar `r`. -/
def ADScalar.sub_assign_scalar {T : Type} [CommRing T] {N : Nat} (self : ADScalar T N)
    (r : T) : ADScalar T N :=
  { self with value := self.value - r }

/-- The member `operator*=(const ADScalar &r)`: the loop over the tangents runs first, on
the value from before the update, then the value is multiplied. -/
def ADScalar.mul_assign {T : Type} [CommRing T] {N : Nat} (self r : ADScalar T N) :
    ADScalar T N :=
  let self1 : ADScalar T N :=
    { self with deriv := fun i => r.value * self.deriv i + self.value * r.deriv i }
  { self1 with value := self1.value * r.value }

/-- The member `operator*=(const R &r)` for a plain scalar `r`. -/
def ADScalar.mul_assign_scalar {T : Type} [CommRing T] {N : Nat} (self : ADScalar T N)
    (r : T) : ADScalar T N :=
  let self1 : ADScalar T N := { self with value := self.value * r }
  { self1 with deriv := fun i => r * self1.deriv i }

/-- The member `operator/=(const ADScalar &r)`: `inv` and `inv2` are taken from the value
before the update, then the value is multiplied by `inv`, then the loop runs. -/
def ADScalar.div_assign {T : Type} [Field T] {N : Nat} (self r : ADScalar T N) :
    ADScalar T N :=
  let inv : T := 1 / r.value
  let inv2 : T := self.value * inv * inv
  let self1 : ADScalar T N := { self with value := self.value * inv }
  { self1 with deriv := fun i => inv * self1.deriv i - inv2 * r.deriv i }

/-- The member `operator/=(const R &r)` for a plain scalar `r`. -/
def ADScalar.div_assign_scalar {T : Type} [Field T] {N : Nat} (self : ADScalar T N)
    (r : T) : ADScalar T N :=
  let inv : T := 1 / r
  let self1 : ADScalar T N := { self with value := self.value * inv }
  { self1 with deriv := fun i => inv * self1.deriv i }

/-- Sample dual numbers over the rationals with two tangents: `6 + (1, 2)ε`. -/
def sampleDualL : ADScalar Rat 2 :=
  ⟨6, fun i => (i : Nat) + 1⟩

/-- Sample dual numbers over the rationals with two tangents: `3 + (5, 4)ε`. -/
def sampleDualR : ADScalar Rat 2 :=
  ⟨3, fun i => 5 - (i : Nat)⟩

/-! ## The finite-element model of `examples/elasticity/model.h` -/

/-- An array of `multiarray.h`, which is not among the sources, as far as the constructor
of `FEModel` uses it: the number of rows its layout was built with, and its entries,
`none` standing for an entry that was never written. -/
structure MultiArray (α : Type) where
  extent : Nat
  entry : Nat → Nat → Option α

/-- A new array on a layout of `extent` rows: no entry has been written. -/
def MultiArray.fresh {α : Type} (extent : Nat) : MultiArray α :=
  ⟨extent, fun _ _ => none⟩

/-- The assignment `a(i, j) = v`.  A row index outside the layout is an access outside
the array and has no defined result, `none`. -/
def MultiArray.assign {α : Type} (a : MultiArray α) (i j : Nat) (v : α) :
    Option (MultiArray α) :=
  if i < a.extent then
    some { a with entry := fun k l => if k = i ∧ l = j then some v else a.entry k l }
  else none

/-- The members of `FEModel` its constructors initialise: the two counts and the arrays
`bcs`, `X`, `U` and `B`. -/
structure FEModel (I T : Type) where
  nnodes : Nat
  nbcs : Nat
  bcs : MultiArray I
  X : MultiArray T
  U : MultiArray T
  B : MultiArray T

/-- The constructor `FEModel(nnodes, X_, nbcs, bcs_)`.  The arrays behind the pointers `X_`
and `bcs_` are lists; reading one past its end, like writing outside an array, has no
defined result, `none`. -/
def FEModel.construct {I T : Type} (nnodes : Nat) (X_ : List T) (nbcs : Nat)
    (bcs_ : List I) : Option (FEModel I T) := do
  let mut bcs : MultiArray I := MultiArray.fresh nbcs
  let mut X : MultiArray T := MultiArray.fresh nnodes
  let U : MultiArray T := MultiArray.fresh nnodes
  let B : MultiArray T := MultiArray.fresh nnodes
  -- Copy the x values
  for i in List.range nnodes do
    for j in List.range 3 do
      X ← X.assign i j (← X_.get? (3 * i + j))
  -- Copy the bcs values
  for i in List.range nnodes do
    for j in List.range 2 do
      bcs ← bcs.assign i j (← bcs_.get? (2 * i + j))
  return ⟨nnodes, nbcs, bcs, X, U, B⟩

end A2D

/-! ## The command-line parser of `include/utils/a2dparser.h`

The class lives outside the namespace `A2D`.  The standard-library functions it calls
(`std::snprintf`, `std::stod`, `std::stoi`) are arguments of the embedding. -/

/-- How a call of `parse_option<ValType>` ends: it returns a value, it throws an
exception with the message `what`, or it dereferences the past-the-end iterator
`args.end()`, which has no defined result. -/
inductive Outcome (V : Type) where
  | returned (v : V)
  | thrown (what : String)
  | past_the_end

/-- The value types `parse_option<ValType>` tells apart with `std::is_same`, each with
the standard-library functions its branches call: for `double` the text `snprintf`
leaves in `info` for an option and a default, and `std::stod`; for `int` the same with
`std::stoi`; for `std::string` the text of `snprintf`; for any other type no branch
runs, and `info` is the content the uninitialised buffer happens to hold. -/
inductive ValType : Type → Type 1 where
  | double {D : Type} (snprintf : String → D → String) (stod : String → Outcome D) :
      ValType D
  | int (snprintf : String → Int → String) (stoi : String → Outcome Int) : ValType Int
  | string (snprintf : String → String → String) : ValType String
  | other {V : Type} (info : String) : ValType V

/-- The class `ArgumentParser`: the arguments, the list `options` (never written) and
the help text. -/
structure ArgumentParser where
  args : List String
  options : List String
  help : String

/-- The constructor `ArgumentParser(argc, argv)` for an `argv` of `argc` entries: the
loop from `i = 1` pushes every argument but `argv[0]`, then the help text is started. -/
def ArgumentParser.construct (argv : List String) : ArgumentParser :=
  { args := argv.drop 1, options := [], help := "" ++ "Usage: ./[executable] " }

/-- The member `parse_option<ValType>(option, default_val)`: the outcome of the call and
the parser after it.  `std::find` gives the position `it` of the first argument equal
to `option`, the length of `args` standing for `args.end()`; `*(it + 1)` is the argument
at position `it + 1`, and there is none when `it + 1` is `args.end()`. -/
def ArgumentParser.parse_option {V : Type} (ty : ValType V) (p : ArgumentParser)
    (option : String) (default_val : V) : Outcome V × ArgumentParser :=
  let info : String :=
    match ty with
    | ValType.double snprintf _ => snprintf option default_val
    | ValType.int snprintf _ => snprintf option default_val
    | ValType.string snprintf => snprintf option default_val
    | ValType.other info => info
  let p1 : ArgumentParser := { p with help := p.help ++ info }
  let it : Nat := p1.args.indexOf option
  if it ≠ p1.args.length then
    match ty with
    | ValType.double _ stod =>
      match p1.args.get? (it + 1) with
      | some token => (stod token, p1)
      | none => (Outcome.past_the_end, p1)
    | ValType.int _ stoi =>
      match p1.args.get? (it + 1) with
      | some token => (stoi token, p1)
      | none => (Outcome.past_the_end, p1)
    | ValType.string _ =>
      match p1.args.get? (it + 1) with
      | some token => (Outcome.returned token, p1)
      | none => (Outcome.past_the_end, p1)
    | ValType.other _ => (Outcome.thrown "invalid type", p1)
  else (Outcome.returned default_val, p1)

/-- The member `parse_option(option)`, the form without a value: whether `std::find`
finds an argument equal to `option`, and the parser after the call. -/
def ArgumentParser.parse_option_flag (p : ArgumentParser) (option : String) :
    Bool × ArgumentParser :=
  let p1 : ArgumentParser := { p with help := (p.help ++ option) ++ " " }
  let it : Nat := p1.args.indexOf option
  if it ≠ p1.args.length then (true, p1) else (false, p1)

/-- A sample conversion standing for `std::stoi` in the concrete checks: a non-empty
token of decimal digits is converted to its number, every other token makes the
conversion throw. -/
def sample_stoi (token : String) : Outcome Int :=
  if token.data ≠ [] ∧ token.data.all Char.isDigit = true then
    Outcome.returned (token.data.foldl (fun n c => 10 * n + ((c.toNat : Int) - 48)) 0)
  else Outcome.thrown "stoi"

namespace A2D

/-! ## The kernels inside and outside their extents -/

theorem MatVecCore_normal_lt {R : Type} [CommRing R] (N M : Nat) (additive : Bool)
    (A : Nat → Nat → R) (x y : Nat → R) (k : Nat) (hk : k < N) :
    MatVecCore N M MatOp.NORMAL additive A x y k =
      (if additive then y k else 0) + ∑ j ∈ Finset.range M, A k j * x j := by
  simp [MatVecCore, hk]

theorem MatVecCore_normal_ge {R : Type} [CommRing R] (N M : Nat) (additive : Bool)
    (A : Nat → Nat → R) (x y : Nat → R) (k : Nat) (hk : N ≤ k) :
    MatVecCore N M MatOp.NORMAL additive A x y k = y k := by
  simp [MatVecCore, Nat.not_lt.mpr hk]

theorem MatVecCore_transpose_lt {R : Type} [CommRing R] (N M : Nat) (additive : Bool)
    (A : Nat → Nat → R) (x y : Nat → R) (k : Nat) (hk : k < M) :
    MatVecCore N M MatOp.TRANSPOSE additive A x y k =
      (if additive then y k else 0) + ∑ i ∈ Finset.range N, A i k * x i := by
  simp [MatVecCore, hk]

theorem MatVecCore_transpose_ge {R : Type} [CommRing R] (N M : Nat) (additive : Bool)
    (A : Nat → Nat → R) (x y : Nat → R) (k : Nat) (hk : M ≤ k) :
    MatVecCore N M MatOp.TRANSPOSE additive A x y k = y k := by
  simp [MatVecCore, Nat.not_lt.mpr hk]

theorem VecOuterCore_lt {R : Type} [CommRing R] (N M : Nat) (additive : Bool)
    (u v : Nat → R) (A : Nat → Nat → R) (i j : Nat) (hi : i < N) (hj : j < M) :
    VecOuterCore N M additive u v A i j = (if additive then A i j else 0) + u i * v j := by
  simp [VecOuterCore, hi, hj]

theorem GetSeed.get_put_data {D : Type} (seed : ADseed) (obj : A2DObj D) (d : D) :
    GetSeed.get_data seed (GetSeed.put_data seed obj d) = d := by
  cases seed <;> rfl

theorem GetSeed.put_data_value {D : Type} (seed : ADseed) (obj : A2DObj D) (d : D) :
    (GetSeed.put_data seed obj d).value = obj.value := by
  cases seed <;> rfl

/-! ## Helper facts about the phases -/

/-- With both inputs active an admissible forward phase returns, leaves `A` and `x` alone
and stores `op(Ȧ)·x + op(A)·ẋ` in the seed slot of `y`. -/
theorem MatVecMultExpr.forward_both_active {R : Type} [CommRing R] (e : MatVecMultExpr)
    (forder : ADorder) (s : Operands R)
    (hok : ¬(e.order = ADorder.FIRST ∧ forder = ADorder.SECOND))
    (hA : e.adA = ADiffType.ACTIVE) (hx : e.adx = ADiffType.ACTIVE) :
    ∃ s2, e.forward forder s = some s2 ∧ s2.A = s.A ∧ s2.x = s.x ∧
      (e.op = MatOp.NORMAL → ∀ i, i < e.N →
        GetSeed.get_data (forward_seed forder) s2.y i
          = ∑ j ∈ Finset.range e.M, GetSeed.get_data (forward_seed forder) s.A i j * s.x.value j
            + ∑ j ∈ Finset.range e.M,
                s.A.value i j * GetSeed.get_data (forward_seed forder) s.x j) ∧
      (e.op = MatOp.TRANSPOSE → ∀ j, j < e.M →
        GetSeed.get_data (forward_seed forder) s2.y j
          = ∑ i ∈ Finset.range e.N, GetSeed.get_data (forward_seed forder) s.A i j * s.x.value i
            + ∑ i ∈ Finset.range e.N,
                s.A.value i j * GetSeed.get_data (forward_seed forder) s.x i) := by
  simp only [MatVecMultExpr.forward, hok, hA, hx, and_self, if_true, if_false]
  refine ⟨_, rfl, rfl, rfl, ?_, ?_⟩
  · intro hop i hi
    simp [GetSeed.get_put_data, get_data, hop, MatVecCore_normal_lt, hi]
  · intro hop j hj
    simp [GetSeed.get_put_data, get_data, hop, MatVecCore_transpose_lt, hj]

/-- The increment `reverse` makes to the b-slot of an active `A`. -/
theorem MatVecMultExpr.reverse_A_bvalue {R : Type} [CommRing R] (e : MatVecMultExpr)
    (s : Operands R) (hA : e.adA = ADiffType.ACTIVE) (i j : Nat) (hi : i < e.N)
    (hj : j < e.M) :
    (e.reverse s).A.bvalue i j
      = s.A.bvalue i j
        + (if e.op = MatOp.NORMAL then s.y.bvalue i * s.x.value j
            else s.x.value i * s.y.bvalue j) := by
  by_cases hop : e.op = MatOp.NORMAL <;> by_cases hx : e.adx = ADiffType.ACTIVE <;>
    simp [MatVecMultExpr.reverse, hop, hA, hx, GetSeed.put_data, GetSeed.get_data, get_data,
      VecOuterCore_lt, hi, hj]

/-- The increment `reverse` makes to the b-slot of an active `x` in NORMAL mode. -/
theorem MatVecMultExpr.reverse_x_bvalue_normal {R : Type} [CommRing R] (e : MatVecMultExpr)
    (s : Operands R) (hop : e.op = MatOp.NORMAL) (hx : e.adx = ADiffType.ACTIVE)
    (j : Nat) (hj : j < e.M) :
    (e.reverse s).x.bvalue j
      = s.x.bvalue j + ∑ k ∈ Finset.range e.N, s.A.value k j * s.y.bvalue k := by
  by_cases hA : e.adA = ADiffType.ACTIVE <;>
    simp [MatVecMultExpr.reverse, MatVecMultExpr.not_op, hop, hA, hx, GetSeed.put_data,
      GetSeed.get_data, get_data, MatVecCore_transpose_lt, hj]

/-- The increment `reverse` makes to the b-slot of an active `x` in TRANSPOSE mode. -/
theorem MatVecMultExpr.reverse_x_bvalue_transpose {R : Type} [CommRing R]
    (e : MatVecMultExpr) (s : Operands R) (hop : e.op = MatOp.TRANSPOSE)
    (hx : e.adx = ADiffType.ACTIVE) (i : Nat) (hi : i < e.N) :
    (e.reverse s).x.bvalue i
      = s.x.bvalue i + ∑ k ∈ Finset.range e.M, s.A.value i k * s.y.bvalue k := by
  by_cases hA : e.adA = ADiffType.ACTIVE <;>
    simp [MatVecMultExpr.reverse, MatVecMultExpr.not_op, hop, hA, hx, GetSeed.put_data,
      GetSeed.get_data, get_data, MatVecCore_normal_lt, hi]

/-- The phase `reverse` writes b-slots of `A` and `x` only. -/
theorem MatVecMultExpr.reverse_frame {R : Type} [CommRing R] (e : MatVecMultExpr)
    (s : Operands R) :
    (e.reverse s).y = s.y ∧ (e.reverse s).A.value = s.A.value ∧
    (e.reverse s).A.pvalue = s.A.pvalue ∧ (e.reverse s).A.hvalue = s.A.hvalue ∧
    (e.reverse s).x.value = s.x.value ∧ (e.reverse s).x.pvalue = s.x.pvalue ∧
    (e.reverse s).x.hvalue = s.x.hvalue := by
  by_cases hA : e.adA = ADiffType.ACTIVE <;> by_cases hx : e.adx = ADiffType.ACTIVE <;>
    by_cases hop : e.op = MatOp.NORMAL <;>
    simp [MatVecMultExpr.reverse, hop, hA, hx, GetSeed.put_data]

/-- An admissible forward phase returns, whatever the activity of the inputs; it leaves `A`,
`x` and the value of `y` alone and writes no slot of `y` but the seed slot of the phase. -/
theorem MatVecMultExpr.forward_frame {R : Type} [CommRing R] (e : MatVecMultExpr)
    (forder : ADorder) (s : Operands R)
    (hok : ¬(e.order = ADorder.FIRST ∧ forder = ADorder.SECOND)) :
    ∃ s2, e.forward forder s = some s2 ∧ s2.A = s.A ∧ s2.x = s.x ∧
      s2.y.value = s.y.value ∧ s2.y.hvalue = s.y.hvalue ∧
      (forder = ADorder.SECOND → s2.y.bvalue = s.y.bvalue) ∧
      (forder = ADorder.FIRST → s2.y.pvalue = s.y.pvalue) := by
  simp only [MatVecMultExpr.forward, hok, if_false]
  by_cases hA : e.adA = ADiffType.ACTIVE <;> by_cases hx : e.adx = ADiffType.ACTIVE <;>
    cases forder <;> simp [hA, hx, forward_seed, GetSeed.put_data]

/-- The increment `hreverse` makes to the h-slot of an active `A`. -/
theorem MatVecMultExpr.hreverse_A_hvalue {R : Type} [CommRing R] (e : MatVecMultExpr)
    (s : Operands R) (hA : e.adA = ADiffType.ACTIVE) (i j : Nat) (hi : i < e.N)
    (hj : j < e.M) :
    (e.hreverse s).A.hvalue i j
      = s.A.hvalue i j
        + (if e.op = MatOp.NORMAL then s.y.hvalue i * s.x.value j
            else s.x.value i * s.y.hvalue j)
        + (if e.adx = ADiffType.ACTIVE then
            (if e.op = MatOp.NORMAL then s.y.bvalue i * s.x.pvalue j
              else s.x.pvalue i * s.y.bvalue j)
          else 0) := by
  by_cases hop : e.op = MatOp.NORMAL <;> by_cases hx : e.adx = ADiffType.ACTIVE <;>
    simp [MatVecMultExpr.hreverse, hop, hA, hx, GetSeed.put_data, GetSeed.get_data, get_data,
      VecOuterCore_lt, hi, hj]

/-- The increment `hreverse` makes to the h-slot of an active `x` in NORMAL mode. -/
theorem MatVecMultExpr.hreverse_x_hvalue_normal {R : Type} [CommRing R] (e : MatVecMultExpr)
    (s : Operands R) (hop : e.op = MatOp.NORMAL) (hx : e.adx = ADiffType.ACTIVE)
    (j : Nat) (hj : j < e.M) :
    (e.hreverse s).x.hvalue j
      = s.x.hvalue j + ∑ k ∈ Finset.range e.N, s.A.value k j * s.y.hvalue k
        + (if e.adA = ADiffType.ACTIVE then
            ∑ k ∈ Finset.range e.N, s.A.pvalue k j * s.y.bvalue k
          else 0) := by
  by_cases hA : e.adA = ADiffType.ACTIVE <;>
    simp [MatVecMultExpr.hreverse, MatVecMultExpr.not_op, hop, hA, hx, GetSeed.put_data,
      GetSeed.get_data, get_data, MatVecCore_transpose_lt, hj]

/-- The increment `hreverse` makes to the h-slot of an active `x` in TRANSPOSE mode. -/
theorem MatVecMultExpr.hreverse_x_hvalue_transpose {R : Type} [CommRing R]
    (e : MatVecMultExpr) (s : Operands R) (hop : e.op = MatOp.TRANSPOSE)
    (hx : e.adx = ADiffType.ACTIVE) (i : Nat) (hi : i < e.N) :
    (e.hreverse s).x.hvalue i
      = s.x.hvalue i + ∑ k ∈ Finset.range e.M, s.A.value i k * s.y.hvalue k
        + (if e.adA = ADiffType.ACTIVE then
            ∑ k ∈ Finset.range e.M, s.A.pvalue i k * s.y.bvalue k
          else 0) := by
  by_cases hA : e.adA = ADiffType.ACTIVE <;>
    simp [MatVecMultExpr.hreverse, MatVecMultExpr.not_op, hop, hA, hx, GetSeed.put_data,
      GetSeed.get_data, get_data, MatVecCore_normal_lt, hi]

/-- The pairing identity behind forward-reverse consistency, NORMAL mode:
`ȳᵀ·(Ȧ·x + A·ẋ) = ⟨ȳ·xᵀ, Ȧ⟩ + (Aᵀ·ȳ)ᵀ·ẋ`. -/
theorem pairing_normal {R : Type} [CommRing R] (N M : Nat) (A Ad : Nat → Nat → R)
    (x xd yb : Nat → R) :
    ∑ i ∈ Finset.range N,
        yb i * (∑ j ∈ Finset.range M, Ad i j * x j + ∑ j ∈ Finset.range M, A i j * xd j)
      = ∑ i ∈ Finset.range N, ∑ j ∈ Finset.range M, (yb i * x j) * Ad i j
        + ∑ j ∈ Finset.range M, (∑ i ∈ Finset.range N, A i j * yb i) * xd j := by
  have h1 : ∑ j ∈ Finset.range M, (∑ i ∈ Finset.range N, A i j * yb i) * xd j
      = ∑ i ∈ Finset.range N, ∑ j ∈ Finset.range M, yb i * (A i j * xd j) := by
    simp only [Finset.sum_mul]
    rw [Finset.sum_comm]
    exact Finset.sum_congr rfl fun i _ => Finset.sum_congr rfl fun j _ => by ring
  rw [h1, ← Finset.sum_add_distrib]
  refine Finset.sum_congr rfl fun i _ => ?_
  rw [mul_add, Finset.mul_sum, Finset.mul_sum]
  congr 1
  exact Finset.sum_congr rfl fun j _ => by ring

/-- The pairing identity behind forward-reverse consistency, TRANSPOSE mode:
`ȳᵀ·(Ȧᵀ·x + Aᵀ·ẋ) = ⟨x·ȳᵀ, Ȧ⟩ + (A·ȳ)ᵀ·ẋ`. -/
theorem pairing_transpose {R : Type} [CommRing R] (N M : Nat) (A Ad : Nat → Nat → R)
    (x xd yb : Nat → R) :
    ∑ j ∈ Finset.range M,
        yb j * (∑ i ∈ Finset.range N, Ad i j * x i + ∑ i ∈ Finset.range N, A i j * xd i)
      = ∑ i ∈ Finset.range N, ∑ j ∈ Finset.range M, (x i * yb j) * Ad i j
        + ∑ i ∈ Finset.range N, (∑ j ∈ Finset.range M, A i j * yb j) * xd i := by
  have h1 : ∑ i ∈ Finset.range N, (∑ j ∈ Finset.range M, A i j * yb j) * xd i
      = ∑ j ∈ Finset.range M, ∑ i ∈ Finset.range N, yb j * (A i j * xd i) := by
    simp only [Finset.sum_mul]
    rw [Finset.sum_comm]
    exact Finset.sum_congr rfl fun j _ => Finset.sum_congr rfl fun i _ => by ring
  have h2 : ∑ i ∈ Finset.range N, ∑ j ∈ Finset.range M, (x i * yb j) * Ad i j
      = ∑ j ∈ Finset.range M, ∑ i ∈ Finset.range N, yb j * (Ad i j * x i) := by
    rw [Finset.sum_comm]
    exact Finset.sum_congr rfl fun j _ => Finset.sum_congr rfl fun i _ => by ring
  rw [h1, h2, ← Finset.sum_add_distrib]
  refine Finset.sum_congr rfl fun j _ => ?_
  rw [mul_add, Finset.mul_sum, Finset.mul_sum]

/-! ## The value phase -/

/-- C1: `MatVecMultExpr::eval` stores `y = op(A)·x` in the value of `y`.  In NORMAL mode
`y_i = Σ_j A_ij·x_j` for every `i < N`, in TRANSPOSE mode `y_j = Σ_i A_ij·x_i` for every
`j < M`; this holds whatever operand `y0` stood in the place of `y` before the call, so
the result overwrites the old value and does not depend on it. -/
theorem MatVecMultExpr.eval_computes_product {R : Type} [CommRing R] (e : MatVecMultExpr)
    (s : Operands R) (y0 : A2DObj (Nat → R)) :
    (e.op = MatOp.NORMAL → ∀ i, i < e.N →
      (e.eval { s with y := y0 }).y.value i
        = ∑ j ∈ Finset.range e.M, s.A.value i j * s.x.value j) ∧
    (e.op = MatOp.TRANSPOSE → ∀ j, j < e.M →
      (e.eval { s with y := y0 }).y.value j
        = ∑ i ∈ Finset.range e.N, s.A.value i j * s.x.value i) := by
  constructor
  · intro hop i hi
    simp [MatVecMultExpr.eval, get_data, hop, MatVecCore_normal_lt, hi]
  · intro hop j hj
    simp [MatVecMultExpr.eval, get_data, hop, MatVecCore_transpose_lt, hj]

/-- C1 at concrete inputs: with `A = [[1, 2], [3, 4]]` and `x = (5, 6)` the NORMAL node
gives `y = (17, 39)`, and with the `2 × 3` matrix `[[1, 2, 3], [3, 4, 5]]` the TRANSPOSE
node gives `y_2 = 3·5 + 5·6 = 45`. -/
theorem MatVecMultExpr.eval_computes_product_witness :
    (sampleNormal.eval sampleOperands).y.value 0 = 17 ∧
    (sampleNormal.eval sampleOperands).y.value 1 = 39 ∧
    (sampleTranspose.eval sampleOperands).y.value 2 = 45 := by
  refine ⟨?_, ?_, ?_⟩
  · rw [(MatVecMultExpr.eval_computes_product sampleNormal sampleOperands sampleOperands.y).1
      rfl 0 (by decide)]
    decide
  · rw [(MatVecMultExpr.eval_computes_product sampleNormal sampleOperands sampleOperands.y).1
      rfl 1 (by decide)]
    decide
  · rw [(MatVecMultExpr.eval_computes_product sampleTranspose sampleOperands sampleOperands.y).2
      rfl 2 (by decide)]
    decide

/-! ## The reverse phase -/

/-- C2: round trip for `y = A·x` (NORMAL mode, both inputs active).  `reverse` adds
`ȳ_i·x_j` to entry `(i, j)` of the b-slot of `A` and adds `Σ_i A_ij·ȳ_i` to entry `j` of
the b-slot of `x`, where `ȳ` is the b-slot of `y`; hence from b-slots that start at zero
the adjoint of `A` is the outer product `ȳ·xᵀ` and the adjoint of `x` is `Aᵀ·ȳ`. -/
theorem MatVecMultExpr.reverse_normal_round_trip {R : Type} [CommRing R]
    (e : MatVecMultExpr) (s : Operands R) (hop : e.op = MatOp.NORMAL)
    (hA : e.adA = ADiffType.ACTIVE) (hx : e.adx = ADiffType.ACTIVE)
    (i j : Nat) (hi : i < e.N) (hj : j < e.M) :
    (e.reverse s).A.bvalue i j = s.A.bvalue i j + s.y.bvalue i * s.x.value j ∧
    (e.reverse s).x.bvalue j
      = s.x.bvalue j + ∑ k ∈ Finset.range e.N, s.A.value k j * s.y.bvalue k ∧
    (s.A.bvalue i j = 0 → (e.reverse s).A.bvalue i j = s.y.bvalue i * s.x.value j) ∧
    (s.x.bvalue j = 0 →
      (e.reverse s).x.bvalue j = ∑ k ∈ Finset.range e.N, s.A.value k j * s.y.bvalue k) := by
  have h1 : (e.reverse s).A.bvalue i j = s.A.bvalue i j + s.y.bvalue i * s.x.value j := by
    simp [MatVecMultExpr.reverse, hop, hA, hx, GetSeed.put_data, GetSeed.get_data, get_data,
      VecOuterCore_lt, hi, hj]
  have h2 : (e.reverse s).x.bvalue j
      = s.x.bvalue j + ∑ k ∈ Finset.range e.N, s.A.value k j * s.y.bvalue k := by
    simp [MatVecMultExpr.reverse, MatVecMultExpr.not_op, hop, hA, hx, GetSeed.put_data,
      GetSeed.get_data, get_data, MatVecCore_transpose_lt, hj]
  refine ⟨h1, h2, ?_, ?_⟩
  · intro h0
    rw [h1, h0, zero_add]
  · intro h0
    rw [h2, h0, zero_add]

/-- C2 at concrete inputs: with `A = [[1, 2], [3, 4]]`, `x = (5, 6)`, `ȳ = (2, 3)` and
zero b-slots, the adjoint of `A` at `(0, 1)` is `ȳ_0·x_1 = 12` and the adjoint of `x` at
`1` is `A_01·ȳ_0 + A_11·ȳ_1 = 16`. -/
theorem MatVecMultExpr.reverse_normal_round_trip_witness :
    (0 < sampleNormal.N ∧ 1 < sampleNormal.M) ∧
    (sampleNormal.reverse sampleSeeded).A.bvalue 0 1 = 12 ∧
    (sampleNormal.reverse sampleSeeded).x.bvalue 1 = 16 := by
  have h := MatVecMultExpr.reverse_normal_round_trip sampleNormal sampleSeeded rfl rfl rfl 0 1
    (by decide) (by decide)
  exact ⟨by decide, (h.2.2.1 rfl).trans (by decide), (h.2.2.2 rfl).trans (by decide)⟩

/-- C3: round trip for `y = Aᵀ·x` (TRANSPOSE mode, `A` is `N × M`, both inputs active).
`reverse` adds `x_i·ȳ_j` to entry `(i, j)` of the b-slot of `A` and adds `Σ_j A_ij·ȳ_j`
(that is `A·ȳ`, untransposed) to entry `i` of the b-slot of `x`; from b-slots that start
at zero the adjoints are `x·ȳᵀ` and `A·ȳ`. -/
theorem MatVecMultExpr.reverse_transpose_round_trip {R : Type} [CommRing R]
    (e : MatVecMultExpr) (s : Operands R) (hop : e.op = MatOp.TRANSPOSE)
    (hA : e.adA = ADiffType.ACTIVE) (hx : e.adx = ADiffType.ACTIVE)
    (i j : Nat) (hi : i < e.N) (hj : j < e.M) :
    (e.reverse s).A.bvalue i j = s.A.bvalue i j + s.x.value i * s.y.bvalue j ∧
    (e.reverse s).x.bvalue i
      = s.x.bvalue i + ∑ k ∈ Finset.range e.M, s.A.value i k * s.y.bvalue k ∧
    (s.A.bvalue i j = 0 → (e.reverse s).A.bvalue i j = s.x.value i * s.y.bvalue j) ∧
    (s.x.bvalue i = 0 →
      (e.reverse s).x.bvalue i = ∑ k ∈ Finset.range e.M, s.A.value i k * s.y.bvalue k) := by
  have h1 : (e.reverse s).A.bvalue i j = s.A.bvalue i j + s.x.value i * s.y.bvalue j := by
    simp [MatVecMultExpr.reverse, hop, hA, hx, GetSeed.put_data, GetSeed.get_data, get_data,
      VecOuterCore_lt, hi, hj]
  have h2 : (e.reverse s).x.bvalue i
      = s.x.bvalue i + ∑ k ∈ Finset.range e.M, s.A.value i k * s.y.bvalue k := by
    simp [MatVecMultExpr.reverse, MatVecMultExpr.not_op, hop, hA, hx, GetSeed.put_data,
      GetSeed.get_data, get_data, MatVecCore_normal_lt, hi]
  refine ⟨h1, h2, ?_, ?_⟩
  · intro h0
    rw [h1, h0, zero_add]
  · intro h0
    rw [h2, h0, zero_add]

/-- C3 at concrete inputs: with the `2 × 3` matrix `[[1, 2, 3], [3, 4, 5]]`, `x = (5, 6)`,
`ȳ = (2, 3, 4)` and zero b-slots, the adjoint of `A` at `(1, 2)` is `x_1·ȳ_2 = 24` and the
adjoint of `x` at `1` is `3·2 + 4·3 + 5·4 = 38`. -/
theorem MatVecMultExpr.reverse_transpose_round_trip_witness :
    (1 < sampleTranspose.N ∧ 2 < sampleTranspose.M) ∧
    (sampleTranspose.reverse sampleSeeded).A.bvalue 1 2 = 24 ∧
    (sampleTranspose.reverse sampleSeeded).x.bvalue 1 = 38 := by
  have h := MatVecMultExpr.reverse_transpose_round_trip sampleTranspose sampleSeeded rfl rfl rfl
    1 2 (by decide) (by decide)
  exact ⟨by decide, (h.2.2.1 rfl).trans (by decide), (h.2.2.2 rfl).trans (by decide)⟩

/-! ## The forward phase -/

/-- C4: forward phase with both inputs active.  With the tangents `Ȧ`, `ẋ` in the seed
channel of the phase (`b` for a first-order phase, `p` for a second-order one) `forward`
returns and sets the seed slot of `y` to `op(Ȧ)·x + op(A)·ẋ`, in NORMAL and in TRANSPOSE
mode, whatever operand `y0` stood in the place of `y` before. -/
theorem MatVecMultExpr.forward_product_rule {R : Type} [CommRing R] (e : MatVecMultExpr)
    (forder : ADorder) (s : Operands R) (y0 : A2DObj (Nat → R))
    (hok : ¬(e.order = ADorder.FIRST ∧ forder = ADorder.SECOND))
    (hA : e.adA = ADiffType.ACTIVE) (hx : e.adx = ADiffType.ACTIVE) :
    ∃ s2, e.forward forder { s with y := y0 } = some s2 ∧
      (e.op = MatOp.NORMAL → ∀ i, i < e.N →
        GetSeed.get_data (forward_seed forder) s2.y i
          = ∑ j ∈ Finset.range e.M, GetSeed.get_data (forward_seed forder) s.A i j * s.x.value j
            + ∑ j ∈ Finset.range e.M,
                s.A.value i j * GetSeed.get_data (forward_seed forder) s.x j) ∧
      (e.op = MatOp.TRANSPOSE → ∀ j, j < e.M →
        GetSeed.get_data (forward_seed forder) s2.y j
          = ∑ i ∈ Finset.range e.N, GetSeed.get_data (forward_seed forder) s.A i j * s.x.value i
            + ∑ i ∈ Finset.range e.N,
                s.A.value i j * GetSeed.get_data (forward_seed forder) s.x i) := by
  obtain ⟨s2, h, -, -, hN, hT⟩ :=
    MatVecMultExpr.forward_both_active e forder { s with y := y0 } hok hA hx
  exact ⟨s2, h, hN, hT⟩

/-- C4 at concrete inputs: a first-order phase on `A = [[1, 2], [3, 4]]`, `x = (5, 6)` with
the tangents `Ȧ = [[0, -1], [1, 0]]`, `ẋ = (1, 3)` in the b-slots gives
`ẏ_0 = (0·5 - 1·6) + (1·1 + 2·3) = 1`; a second-order phase in TRANSPOSE mode on the
`2 × 3` matrix with the tangents `Ȧ = [[0, 2, 4], [1, 3, 5]]`, `ẋ = (3, 2)` in the p-slots
gives `ẏ_2 = (4·5 + 5·6) + (3·3 + 5·2) = 69`. -/
theorem MatVecMultExpr.forward_product_rule_witness :
    (∃ s2, sampleNormal.forward ADorder.FIRST sampleOperands = some s2 ∧ s2.y.bvalue 0 = 1) ∧
    (∃ s2, sampleTranspose.forward ADorder.SECOND sampleOperands = some s2 ∧
      s2.y.pvalue 2 = 69) := by
  constructor
  · obtain ⟨s2, h, hN, -⟩ := MatVecMultExpr.forward_product_rule sampleNormal ADorder.FIRST
      sampleOperands sampleOperands.y (by decide) rfl rfl
    exact ⟨s2, h, (hN rfl 0 (by decide)).trans (by decide)⟩
  · obtain ⟨s2, h, -, hT⟩ := MatVecMultExpr.forward_product_rule sampleTranspose ADorder.SECOND
      sampleOperands sampleOperands.y (by decide) rfl rfl
    exact ⟨s2, h, (hT rfl 2 (by decide)).trans (by decide)⟩

/-! ## Forward against reverse -/

/-- C5: forward-reverse consistency of `MatVecMultExpr`, both modes, both inputs active.
Let `ẏ` be the tangent an admissible `forward` writes from the tangents `(Ȧ, ẋ)` of `sF`,
and let `(Ā, x̄)` be the adjoints `reverse` produces on `sR`, which holds the same values,
the adjoint seed `ȳ` and zero b-slots for `A` and `x`.  Then
`Σ_k ȳ_k·ẏ_k = Σ_ij Ā_ij·Ȧ_ij + Σ_k x̄_k·ẋ_k`, the sums running over the extents `P` of
`y`, `N × M` of `A` and `K` of `x`: the Jacobian read off column by column from `forward`
is the Jacobian read off row by row from `reverse`. -/
theorem MatVecMultExpr.forward_reverse_consistency {R : Type} [CommRing R]
    (e : MatVecMultExpr) (forder : ADorder) (sF sR : Operands R)
    (hd : dimensions_agree e.op e.N e.M e.K e.P = true)
    (hok : ¬(e.order = ADorder.FIRST ∧ forder = ADorder.SECOND))
    (hA : e.adA = ADiffType.ACTIVE) (hx : e.adx = ADiffType.ACTIVE)
    (hAv : sR.A.value = sF.A.value) (hxv : sR.x.value = sF.x.value)
    (hAb : ∀ i j, sR.A.bvalue i j = 0) (hxb : ∀ k, sR.x.bvalue k = 0) :
    ∃ s2, e.forward forder sF = some s2 ∧
      ∑ k ∈ Finset.range e.P, sR.y.bvalue k * GetSeed.get_data (forward_seed forder) s2.y k
        = ∑ i ∈ Finset.range e.N, ∑ j ∈ Finset.range e.M,
            (e.reverse sR).A.bvalue i j * GetSeed.get_data (forward_seed forder) sF.A i j
          + ∑ k ∈ Finset.range e.K,
              (e.reverse sR).x.bvalue k * GetSeed.get_data (forward_seed forder) sF.x k := by
  obtain ⟨s2, h, -, -, hN, hT⟩ := MatVecMultExpr.forward_both_active e forder sF hok hA hx
  refine ⟨s2, h, ?_⟩
  have hRA : ∀ i ∈ Finset.range e.N, ∀ j ∈ Finset.range e.M,
      (e.reverse sR).A.bvalue i j
        = (if e.op = MatOp.NORMAL then sR.y.bvalue i * sF.x.value j
            else sF.x.value i * sR.y.bvalue j) := by
    intro i hi j hj
    rw [MatVecMultExpr.reverse_A_bvalue e sR hA i j (Finset.mem_range.mp hi)
      (Finset.mem_range.mp hj), hAb, zero_add, hxv]
  have hsumA : ∑ i ∈ Finset.range e.N, ∑ j ∈ Finset.range e.M,
        (e.reverse sR).A.bvalue i j * GetSeed.get_data (forward_seed forder) sF.A i j
      = ∑ i ∈ Finset.range e.N, ∑ j ∈ Finset.range e.M,
          (if e.op = MatOp.NORMAL then sR.y.bvalue i * sF.x.value j
            else sF.x.value i * sR.y.bvalue j)
          * GetSeed.get_data (forward_seed forder) sF.A i j :=
    Finset.sum_congr rfl fun i hi => Finset.sum_congr rfl fun j hj => by rw [hRA i hi j hj]
  rw [hsumA]
  cases hop : e.op with
  | NORMAL =>
    have hdim : e.M = e.K ∧ e.N = e.P := by simpa [dimensions_agree, hop] using hd
    rw [← hdim.1, ← hdim.2]
    have hy : ∑ k ∈ Finset.range e.N,
          sR.y.bvalue k * GetSeed.get_data (forward_seed forder) s2.y k
        = ∑ k ∈ Finset.range e.N, sR.y.bvalue k *
            (∑ j ∈ Finset.range e.M,
                GetSeed.get_data (forward_seed forder) sF.A k j * sF.x.value j
              + ∑ j ∈ Finset.range e.M,
                  sF.A.value k j * GetSeed.get_data (forward_seed forder) sF.x j) :=
      Finset.sum_congr rfl fun k hk => by rw [hN hop k (Finset.mem_range.mp hk)]
    have hxs : ∑ k ∈ Finset.range e.M,
          (e.reverse sR).x.bvalue k * GetSeed.get_data (forward_seed forder) sF.x k
        = ∑ k ∈ Finset.range e.M,
            (∑ i ∈ Finset.range e.N, sF.A.value i k * sR.y.bvalue i)
              * GetSeed.get_data (forward_seed forder) sF.x k :=
      Finset.sum_congr rfl fun k hk => by
        rw [MatVecMultExpr.reverse_x_bvalue_normal e sR hop hx k (Finset.mem_range.mp hk),
          hxb, zero_add, hAv]
    rw [hy, hxs]
    simpa using pairing_normal e.N e.M sF.A.value
      (GetSeed.get_data (forward_seed forder) sF.A) sF.x.value
      (GetSeed.get_data (forward_seed forder) sF.x) sR.y.bvalue
  | TRANSPOSE =>
    have hdim : e.M = e.P ∧ e.N = e.K := by simpa [dimensions_agree, hop] using hd
    rw [← hdim.1, ← hdim.2]
    have hy : ∑ k ∈ Finset.range e.M,
          sR.y.bvalue k * GetSeed.get_data (forward_seed forder) s2.y k
        = ∑ k ∈ Finset.range e.M, sR.y.bvalue k *
            (∑ i ∈ Finset.range e.N,
                GetSeed.get_data (forward_seed forder) sF.A i k * sF.x.value i
              + ∑ i ∈ Finset.range e.N,
                  sF.A.value i k * GetSeed.get_data (forward_seed forder) sF.x i) :=
      Finset.sum_congr rfl fun k hk => by rw [hT hop k (Finset.mem_range.mp hk)]
    have hxs : ∑ k ∈ Finset.range e.N,
          (e.reverse sR).x.bvalue k * GetSeed.get_data (forward_seed forder) sF.x k
        = ∑ k ∈ Finset.range e.N,
            (∑ j ∈ Finset.range e.M, sF.A.value k j * sR.y.bvalue j)
              * GetSeed.get_data (forward_seed forder) sF.x k :=
      Finset.sum_congr rfl fun k hk => by
        rw [MatVecMultExpr.reverse_x_bvalue_transpose e sR hop hx k (Finset.mem_range.mp hk),
          hxb, zero_add, hAv]
    rw [hy, hxs]
    simpa using pairing_transpose e.N e.M sF.A.value
      (GetSeed.get_data (forward_seed forder) sF.A) sF.x.value
      (GetSeed.get_data (forward_seed forder) sF.x) sR.y.bvalue

/-- C5 at concrete inputs: the `2 × 3` TRANSPOSE node, tangents in the p-slots of
`sampleOperands`, adjoints from the zero b-slots of `sampleSeeded`; both sides of the
identity are the same integer. -/
theorem MatVecMultExpr.forward_reverse_consistency_witness :
    dimensions_agree sampleTranspose.op sampleTranspose.N sampleTranspose.M sampleTranspose.K
      sampleTranspose.P = true ∧
    ∃ s2, sampleTranspose.forward ADorder.SECOND sampleOperands = some s2 ∧
      ∑ k ∈ Finset.range 3, sampleSeeded.y.bvalue k * s2.y.pvalue k
        = ∑ i ∈ Finset.range 2, ∑ j ∈ Finset.range 3,
            (sampleTranspose.reverse sampleSeeded).A.bvalue i j * sampleOperands.A.pvalue i j
          + ∑ k ∈ Finset.range 2,
              (sampleTranspose.reverse sampleSeeded).x.bvalue k * sampleOperands.x.pvalue k :=
  ⟨rfl, MatVecMultExpr.forward_reverse_consistency sampleTranspose ADorder.SECOND sampleOperands
    sampleSeeded rfl (by decide) rfl rfl rfl rfl (fun _ _ => rfl) (fun _ => rfl)⟩

/-! ## The second-order phases -/

/-- C6: Hessian-vector product for `y = A·x` (NORMAL mode, second-order operands, both
inputs active).  With tangents `Ȧ`, `ẋ` in the p-slots, the seeds `ȳ`, `ŷ` in the b- and
h-slot of `y` and the h-slots of `A` and `x` at zero, running `reverse`, then
`forward<SECOND>`, then `hreverse` returns and leaves `A.h = ŷ·xᵀ + ȳ·ẋᵀ` and
`x.h = Aᵀ·ŷ + Ȧᵀ·ȳ`.  These are exact Hessian-vector products: what `reverse` adds at the
values `A + t·Ȧ`, `x + t·ẋ` is, for every `t`, what it adds at `A`, `x` plus `t` times the
final h-slot less what `reverse` adds from the seed `ŷ`. -/
theorem MatVecMultExpr.hprod_normal {R : Type} [CommRing R] (e : MatVecMultExpr)
    (s : Operands R) (hop : e.op = MatOp.NORMAL) (hA : e.adA = ADiffType.ACTIVE)
    (hx : e.adx = ADiffType.ACTIVE) (hord : e.order = ADorder.SECOND)
    (i j : Nat) (hi : i < e.N) (hj : j < e.M)
    (hAh : s.A.hvalue i j = 0) (hxh : s.x.hvalue j = 0) :
    ∃ s2, e.forward ADorder.SECOND (e.reverse s) = some s2 ∧
      (e.hreverse s2).A.hvalue i j
        = s.y.hvalue i * s.x.value j + s.y.bvalue i * s.x.pvalue j ∧
      (e.hreverse s2).x.hvalue j
        = ∑ k ∈ Finset.range e.N, s.A.value k j * s.y.hvalue k
          + ∑ k ∈ Finset.range e.N, s.A.pvalue k j * s.y.bvalue k ∧
      (∀ t : R, e.reverse_increment_A (s.shift t) i j
        = e.reverse_increment_A s i j
          + t * ((e.hreverse s2).A.hvalue i j - e.reverse_increment_A s.seed_h i j)) ∧
      (∀ t : R, e.reverse_increment_x (s.shift t) j
        = e.reverse_increment_x s j
          + t * ((e.hreverse s2).x.hvalue j - e.reverse_increment_x s.seed_h j)) := by
  obtain ⟨s2, h, hA2, hx2, -, hyh, hyb, -⟩ :=
    MatVecMultExpr.forward_frame e ADorder.SECOND (e.reverse s) (by simp [hord])
  obtain ⟨ry, rAv, rAp, rAh, rxv, rxp, rxh⟩ := MatVecMultExpr.reverse_frame e s
  have h1 : (e.hreverse s2).A.hvalue i j
      = s.y.hvalue i * s.x.value j + s.y.bvalue i * s.x.pvalue j := by
    rw [MatVecMultExpr.hreverse_A_hvalue e s2 hA i j hi hj]
    simp [hop, hx, hA2, hx2, hyh, hyb rfl, ry, rAh, rxv, rxp, hAh]
  have h2 : (e.hreverse s2).x.hvalue j
      = ∑ k ∈ Finset.range e.N, s.A.value k j * s.y.hvalue k
        + ∑ k ∈ Finset.range e.N, s.A.pvalue k j * s.y.bvalue k := by
    rw [MatVecMultExpr.hreverse_x_hvalue_normal e s2 hop hx j hj]
    simp [hA, hA2, hx2, hyh, hyb rfl, ry, rAv, rAp, rxh, hxh]
  refine ⟨s2, h, h1, h2, ?_, ?_⟩
  · intro t
    rw [h1]
    simp only [MatVecMultExpr.reverse_increment_A,
      MatVecMultExpr.reverse_A_bvalue e _ hA i j hi hj, hop, if_true]
    simp only [Operands.shift, Operands.seed_h]
    ring
  · intro t
    rw [h2]
    simp only [MatVecMultExpr.reverse_increment_x,
      MatVecMultExpr.reverse_x_bvalue_normal e _ hop hx j hj]
    simp only [Operands.shift, Operands.seed_h, add_mul, Finset.sum_add_distrib, mul_assoc,
      ← Finset.mul_sum]
    ring

/-- C6 at concrete inputs: `A = [[1, 2], [3, 4]]`, `x = (5, 6)`, `Ȧ = [[0, 2], [1, 3]]`,
`ẋ = (3, 2)`, `ȳ = (2, 3)`, `ŷ = (2, -1)` and zero h-slots give
`A.h_01 = ŷ_0·x_1 + ȳ_0·ẋ_1 = 16` and `x.h_1 = (2·2 - 4·1) + (2·2 + 3·3) = 13`. -/
theorem MatVecMultExpr.hprod_normal_witness :
    (0 < sampleNormal.N ∧ 1 < sampleNormal.M) ∧
    ∃ s2, sampleNormal.forward ADorder.SECOND (sampleNormal.reverse sampleSeeded) = some s2 ∧
      (sampleNormal.hreverse s2).A.hvalue 0 1 = 16 ∧
      (sampleNormal.hreverse s2).x.hvalue 1 = 13 := by
  obtain ⟨s2, h, h1, h2, -, -⟩ := MatVecMultExpr.hprod_normal sampleNormal sampleSeeded
    rfl rfl rfl rfl 0 1 (by decide) (by decide) rfl rfl
  exact ⟨by decide, s2, h, h1.trans (by decide), h2.trans (by decide)⟩

/-- C7: second reverse in TRANSPOSE mode (`y = Aᵀ·x`, `A` is `N × M`, both inputs active).
`hreverse` adds `x_i·ŷ_j + ẋ_i·ȳ_j` to entry `(i, j)` of the h-slot of `A` and adds
`Σ_j (A_ij·ŷ_j + Ȧ_ij·ȳ_j)` to entry `i` of the h-slot of `x`.  These increments are the
directional derivative along `(Ȧ, ẋ)` of the adjoints of `reverse` plus the reverse map
applied to `ŷ`: what `reverse` adds at the values `A + t·Ȧ`, `x + t·ẋ` is, for every `t`,
what it adds at `A`, `x` plus `t` times the increment of `hreverse` less what `reverse`
adds from the seed `ŷ`. -/
theorem MatVecMultExpr.hreverse_transpose {R : Type} [CommRing R] (e : MatVecMultExpr)
    (s : Operands R) (hop : e.op = MatOp.TRANSPOSE) (hA : e.adA = ADiffType.ACTIVE)
    (hx : e.adx = ADiffType.ACTIVE) (i j : Nat) (hi : i < e.N) (hj : j < e.M) :
    (e.hreverse s).A.hvalue i j
      = s.A.hvalue i j + (s.x.value i * s.y.hvalue j + s.x.pvalue i * s.y.bvalue j) ∧
    (e.hreverse s).x.hvalue i
      = s.x.hvalue i
        + ∑ k ∈ Finset.range e.M,
            (s.A.value i k * s.y.hvalue k + s.A.pvalue i k * s.y.bvalue k) ∧
    (∀ t : R, e.reverse_increment_A (s.shift t) i j
      = e.reverse_increment_A s i j
        + t * (e.hreverse_increment_A s i j - e.reverse_increment_A s.seed_h i j)) ∧
    (∀ t : R, e.reverse_increment_x (s.shift t) i
      = e.reverse_increment_x s i
        + t * (e.hreverse_increment_x s i - e.reverse_increment_x s.seed_h i)) := by
  have hne : ¬ (MatOp.TRANSPOSE = MatOp.NORMAL) := by decide
  have h1 : (e.hreverse s).A.hvalue i j
      = s.A.hvalue i j + (s.x.value i * s.y.hvalue j + s.x.pvalue i * s.y.bvalue j) := by
    rw [MatVecMultExpr.hreverse_A_hvalue e s hA i j hi hj]
    simp [hop, hx, add_assoc]
  have h2 : (e.hreverse s).x.hvalue i
      = s.x.hvalue i
        + ∑ k ∈ Finset.range e.M,
            (s.A.value i k * s.y.hvalue k + s.A.pvalue i k * s.y.bvalue k) := by
    rw [MatVecMultExpr.hreverse_x_hvalue_transpose e s hop hx i hi]
    simp [hA, Finset.sum_add_distrib, add_assoc]
  refine ⟨h1, h2, ?_, ?_⟩
  · intro t
    simp only [MatVecMultExpr.hreverse_increment_A, h1, MatVecMultExpr.reverse_increment_A,
      MatVecMultExpr.reverse_A_bvalue e _ hA i j hi hj, hop, hne, if_false]
    simp only [Operands.shift, Operands.seed_h]
    ring
  · intro t
    simp only [MatVecMultExpr.hreverse_increment_x, h2, MatVecMultExpr.reverse_increment_x,
      MatVecMultExpr.reverse_x_bvalue_transpose e _ hop hx i hi]
    simp only [Operands.shift, Operands.seed_h, add_mul, Finset.sum_add_distrib, mul_assoc,
      ← Finset.mul_sum]
    ring

/-- C7 at concrete inputs: on the `2 × 3` matrix with non-zero h-slots, `hreverse` adds
`x_1·ŷ_2 + ẋ_1·ȳ_2 = 6·(-4) + 2·4 = -16` to `A.h_12 = 1` and adds
`(3·2 - 4·1 - 5·4) + (1·2 + 3·3 + 5·4) = 13` to `x.h_1 = 8`. -/
theorem MatVecMultExpr.hreverse_transpose_witness :
    (1 < sampleTranspose.N ∧ 2 < sampleTranspose.M) ∧
    (sampleTranspose.hreverse sampleOperands).A.hvalue 1 2 = 1 + -16 ∧
    (sampleTranspose.hreverse sampleOperands).x.hvalue 1 = 8 + 13 := by
  have h := MatVecMultExpr.hreverse_transpose sampleTranspose sampleOperands rfl rfl rfl 1 2
    (by decide) (by decide)
  exact ⟨by decide, h.1.trans (by decide), h.2.1.trans (by decide)⟩

/-- C8, the claim as stated fails: on `sampleOperands` the phase `forward<SECOND>` of the
`2 × 2` NORMAL node returns operands whose `y.h_0` is still `2`, not
`Σ_j A.h_0j·x_j + Σ_j A_0j·x.h_j = 17`; what it wrote is `y.p_0 = 19`. -/
theorem MatVecMultExpr.forward_second_h_channel_counterexample :
    (¬ ∃ s2, sampleNormal.forward ADorder.SECOND sampleOperands = some s2 ∧
      s2.y.hvalue 0
        = ∑ j ∈ Finset.range 2, sampleOperands.A.hvalue 0 j * sampleOperands.x.value j
          + ∑ j ∈ Finset.range 2, sampleOperands.A.value 0 j * sampleOperands.x.hvalue j) ∧
    (∃ s2, sampleNormal.forward ADorder.SECOND sampleOperands = some s2 ∧
      s2.y.hvalue 0 = 2 ∧ s2.y.pvalue 0 = 19 ∧
      ∑ j ∈ Finset.range 2, sampleOperands.A.hvalue 0 j * sampleOperands.x.value j
        + ∑ j ∈ Finset.range 2, sampleOperands.A.value 0 j * sampleOperands.x.hvalue j
        = 17) := by
  obtain ⟨s2, h, -, -, hN, -⟩ := MatVecMultExpr.forward_both_active sampleNormal ADorder.SECOND
    sampleOperands (by decide) rfl rfl
  obtain ⟨s3, h3, -, -, -, hyh, -, -⟩ := MatVecMultExpr.forward_frame sampleNormal
    ADorder.SECOND sampleOperands (by decide)
  have h23 : s3 = s2 := Option.some.inj (h3.symm.trans h)
  subst h23
  have hh : s3.y.hvalue 0 = 2 := by rw [hyh]; rfl
  have hp : s3.y.pvalue 0 = 19 := (hN rfl 0 (by decide)).trans (by decide)
  refine ⟨?_, s3, h, hh, hp, by decide⟩
  rintro ⟨s4, h4, heq⟩
  have h43 : s4 = s3 := Option.some.inj (h4.symm.trans h)
  rw [h43, hh] at heq
  exact absurd heq (by decide)

/-- C8, as amended: `forward<SECOND>` has the structure of the first-order forward phase
on the p-channel.  On second-order operands it returns; with both inputs active it
stores `op(A_p)·x + op(A)·x_p` in the p-slot of `y`; for every activity of the inputs it is
the first-order phase carried over by exchanging the b- and p-slots; and it neither
writes nor reads an h-slot: it commutes with any replacement of the h-slots. -/
theorem MatVecMultExpr.forward_second_p_channel {R : Type} [CommRing R] (e : MatVecMultExpr)
    (s : Operands R) (hord : e.order = ADorder.SECOND) :
    ∃ s2, e.forward ADorder.SECOND s = some s2 ∧
      (e.adA = ADiffType.ACTIVE → e.adx = ADiffType.ACTIVE → e.op = MatOp.NORMAL →
        ∀ i, i < e.N →
          s2.y.pvalue i
            = ∑ j ∈ Finset.range e.M, s.A.pvalue i j * s.x.value j
              + ∑ j ∈ Finset.range e.M, s.A.value i j * s.x.pvalue j) ∧
      (e.adA = ADiffType.ACTIVE → e.adx = ADiffType.ACTIVE → e.op = MatOp.TRANSPOSE →
        ∀ j, j < e.M →
          s2.y.pvalue j
            = ∑ i ∈ Finset.range e.N, s.A.pvalue i j * s.x.value i
              + ∑ i ∈ Finset.range e.N, s.A.value i j * s.x.pvalue i) ∧
      (e.forward ADorder.FIRST s.swap_bp).map Operands.swap_bp = some s2 ∧
      (∀ (Ah : Nat → Nat → R) (xh yh : Nat → R),
        e.forward ADorder.SECOND (s.with_h Ah xh yh) = some (s2.with_h Ah xh yh)) := by
  have hok : ¬(e.order = ADorder.FIRST ∧ ADorder.SECOND = ADorder.SECOND) := by simp [hord]
  have hok1 : ¬(e.order = ADorder.FIRST ∧ ADorder.FIRST = ADorder.SECOND) := by simp
  obtain ⟨s2, h, -⟩ := MatVecMultExpr.forward_frame e ADorder.SECOND s hok
  refine ⟨s2, h, ?_, ?_, ?_, ?_⟩
  · intro hA hx hop i hi
    obtain ⟨s3, h3, -, -, hN, -⟩ :=
      MatVecMultExpr.forward_both_active e ADorder.SECOND s hok hA hx
    have h23 : s3 = s2 := Option.some.inj (h3.symm.trans h)
    subst h23
    exact hN hop i hi
  · intro hA hx hop j hj
    obtain ⟨s3, h3, -, -, -, hT⟩ :=
      MatVecMultExpr.forward_both_active e ADorder.SECOND s hok hA hx
    have h23 : s3 = s2 := Option.some.inj (h3.symm.trans h)
    subst h23
    exact hT hop j hj
  · rw [← h]
    simp only [MatVecMultExpr.forward, hok, hok1, if_false]
    by_cases hA : e.adA = ADiffType.ACTIVE <;> by_cases hx : e.adx = ADiffType.ACTIVE <;>
      simp [hA, hx, hord, forward_seed, GetSeed.put_data, GetSeed.get_data, get_data,
        Operands.swap_bp, A2DObj.swap_bp]
  · intro Ah xh yh
    have h2 : some s2 = e.forward ADorder.SECOND s := h.symm
    simp only [MatVecMultExpr.forward, hok, if_false] at h2 ⊢
    by_cases hA : e.adA = ADiffType.ACTIVE <;> by_cases hx : e.adx = ADiffType.ACTIVE <;>
      simp [hA, hx, forward_seed, GetSeed.put_data, GetSeed.get_data, get_data,
        Operands.with_h] at h2 ⊢ <;> simp [h2]

/-- C8 as amended, at concrete inputs: on second-order operands `forward<SECOND>` of the
`2 × 2` NORMAL node stores `(0·5 + 2·6) + (1·3 + 2·2) = 19` in `y.p_0`. -/
theorem MatVecMultExpr.forward_second_p_channel_witness :
    sampleNormal.order = ADorder.SECOND ∧
    ∃ s2, sampleNormal.forward ADorder.SECOND sampleOperands = some s2 ∧
      s2.y.pvalue 0 = 19 := by
  obtain ⟨s2, h, hN, -, -, -⟩ :=
    MatVecMultExpr.forward_second_p_channel sampleNormal sampleOperands rfl
  exact ⟨rfl, s2, h, (hN rfl rfl rfl 0 (by decide)).trans (by decide)⟩

/-! ## Passive inputs -/

/-- C9: passive-input zero contribution.  When `A` is passive, an admissible `forward`,
`reverse` and `hreverse` each return `A` exactly as it was (so derivative slots that start
at zero stay zero), and the `x` and `y` they return are the same whatever derivative slots
`b`, `p`, `h` the operand `A` carries.  The same holds for a passive `x`, with the roles of
`A` and `x` exchanged. -/
theorem MatVecMultExpr.passive_input_untouched {R : Type} [CommRing R] (e : MatVecMultExpr)
    (forder : ADorder) (s : Operands R)
    (hok : ¬(e.order = ADorder.FIRST ∧ forder = ADorder.SECOND)) :
    (e.adA = ADiffType.PASSIVE →
      (∃ s2, e.forward forder s = some s2 ∧ s2.A = s.A) ∧
      (e.reverse s).A = s.A ∧ (e.hreverse s).A = s.A ∧
      ∀ b p h : Nat → Nat → R,
        (∃ s2 s3, e.forward forder s = some s2 ∧
          e.forward forder { s with A := ⟨s.A.value, b, p, h⟩ } = some s3 ∧
          s3.x = s2.x ∧ s3.y = s2.y) ∧
        (e.reverse { s with A := ⟨s.A.value, b, p, h⟩ }).x = (e.reverse s).x ∧
        (e.reverse { s with A := ⟨s.A.value, b, p, h⟩ }).y = (e.reverse s).y ∧
        (e.hreverse { s with A := ⟨s.A.value, b, p, h⟩ }).x = (e.hreverse s).x ∧
        (e.hreverse { s with A := ⟨s.A.value, b, p, h⟩ }).y = (e.hreverse s).y) ∧
    (e.adx = ADiffType.PASSIVE →
      (∃ s2, e.forward forder s = some s2 ∧ s2.x = s.x) ∧
      (e.reverse s).x = s.x ∧ (e.hreverse s).x = s.x ∧
      ∀ b p h : Nat → R,
        (∃ s2 s3, e.forward forder s = some s2 ∧
          e.forward forder { s with x := ⟨s.x.value, b, p, h⟩ } = some s3 ∧
          s3.A = s2.A ∧ s3.y = s2.y) ∧
        (e.reverse { s with x := ⟨s.x.value, b, p, h⟩ }).A = (e.reverse s).A ∧
        (e.reverse { s with x := ⟨s.x.value, b, p, h⟩ }).y = (e.reverse s).y ∧
        (e.hreverse { s with x := ⟨s.x.value, b, p, h⟩ }).A = (e.hreverse s).A ∧
        (e.hreverse { s with x := ⟨s.x.value, b, p, h⟩ }).y = (e.hreverse s).y) := by
  constructor
  · intro hA
    have hA2 : ¬ e.adA = ADiffType.ACTIVE := by simp [hA]
    refine ⟨?_, ?_, ?_, ?_⟩
    · obtain ⟨s2, h, hA3, -⟩ := MatVecMultExpr.forward_frame e forder s hok
      exact ⟨s2, h, hA3⟩
    · by_cases hx : e.adx = ADiffType.ACTIVE <;> simp [MatVecMultExpr.reverse, hA2, hx]
    · by_cases hx : e.adx = ADiffType.ACTIVE <;> simp [MatVecMultExpr.hreverse, hA2, hx]
    · intro b p h
      refine ⟨?_, ?_, ?_, ?_, ?_⟩
      · simp only [MatVecMultExpr.forward, hok, if_false]
        by_cases hx : e.adx = ADiffType.ACTIVE <;> simp [hA2, hx, get_data]
      all_goals
        by_cases hx : e.adx = ADiffType.ACTIVE <;>
          simp [MatVecMultExpr.reverse, MatVecMultExpr.hreverse, hA2, hx, get_data]
  · intro hx
    have hx2 : ¬ e.adx = ADiffType.ACTIVE := by simp [hx]
    refine ⟨?_, ?_, ?_, ?_⟩
    · obtain ⟨s2, h, -, hx3, -⟩ := MatVecMultExpr.forward_frame e forder s hok
      exact ⟨s2, h, hx3⟩
    · by_cases hA : e.adA = ADiffType.ACTIVE <;> by_cases hop : e.op = MatOp.NORMAL <;>
        simp [MatVecMultExpr.reverse, hx2, hA, hop]
    · by_cases hA : e.adA = ADiffType.ACTIVE <;> by_cases hop : e.op = MatOp.NORMAL <;>
        simp [MatVecMultExpr.hreverse, hx2, hA, hop]
    · intro b p h
      refine ⟨?_, ?_, ?_, ?_, ?_⟩
      · simp only [MatVecMultExpr.forward, hok, if_false]
        by_cases hA : e.adA = ADiffType.ACTIVE <;> simp [hx2, hA, get_data]
      all_goals
        by_cases hA : e.adA = ADiffType.ACTIVE <;> by_cases hop : e.op = MatOp.NORMAL <;>
          simp [MatVecMultExpr.reverse, MatVecMultExpr.hreverse, hx2, hA, hop, get_data]

/-- C9 at concrete inputs: the `2 × 2` NORMAL node with `A` passive leaves `A` as it was
in `forward<SECOND>`, `reverse` and `hreverse`; with `x` passive it leaves `x` as it was. -/
theorem MatVecMultExpr.passive_input_untouched_witness :
    (∃ s2, sampleNormal.only_x.forward ADorder.SECOND sampleOperands = some s2 ∧
      s2.A = sampleOperands.A) ∧
    (sampleNormal.only_x.reverse sampleOperands).A = sampleOperands.A ∧
    (sampleNormal.only_x.hreverse sampleOperands).A = sampleOperands.A ∧
    (sampleNormal.only_A.reverse sampleOperands).x = sampleOperands.x ∧
    (sampleNormal.only_A.hreverse sampleOperands).x = sampleOperands.x := by
  have hA := (MatVecMultExpr.passive_input_untouched sampleNormal.only_x ADorder.SECOND
    sampleOperands (by decide)).1 rfl
  have hx := (MatVecMultExpr.passive_input_untouched sampleNormal.only_A ADorder.SECOND
    sampleOperands (by decide)).2 rfl
  exact ⟨hA.1, hA.2.1, hA.2.2.1, hx.2.1, hx.2.2.1⟩

/-! ## Additivity over the active inputs -/

/-- C10: linearity of `forward` and `reverse` over the active inputs.  With both inputs
active, (i) the output tangent an admissible `forward` writes is, at every entry of `y`
(`k < P`), the sum of the tangent written with only `A` active and the tangent written with
only `x` active; (ii) what `reverse` adds to the b-slot of `A` is what it adds with only
`A` active, and what it adds to the b-slot of `x` is what it adds with only `x` active. -/
theorem MatVecMultExpr.forward_reverse_additive {R : Type} [CommRing R] (e : MatVecMultExpr)
    (forder : ADorder) (s : Operands R)
    (hd : dimensions_agree e.op e.N e.M e.K e.P = true)
    (hok : ¬(e.order = ADorder.FIRST ∧ forder = ADorder.SECOND))
    (hA : e.adA = ADiffType.ACTIVE) (hx : e.adx = ADiffType.ACTIVE) :
    (∃ s2 sA sx, e.forward forder s = some s2 ∧ e.only_A.forward forder s = some sA ∧
      e.only_x.forward forder s = some sx ∧
      ∀ k, k < e.P →
        GetSeed.get_data (forward_seed forder) s2.y k
          = GetSeed.get_data (forward_seed forder) sA.y k
            + GetSeed.get_data (forward_seed forder) sx.y k) ∧
    (∀ i j, e.reverse_increment_A s i j = e.only_A.reverse_increment_A s i j) ∧
    (∀ k, e.reverse_increment_x s k = e.only_x.reverse_increment_x s k) := by
  refine ⟨?_, ?_, ?_⟩
  · simp only [MatVecMultExpr.forward, MatVecMultExpr.only_A, MatVecMultExpr.only_x, hok, hA,
      hx, and_self, if_true, if_false]
    refine ⟨_, _, _, rfl, by simp; rfl, by simp; rfl, ?_⟩
    intro k hk
    cases hop : e.op with
    | NORMAL =>
      have hdim : e.M = e.K ∧ e.N = e.P := by simpa [dimensions_agree, hop] using hd
      have hk2 : k < e.N := hdim.2 ▸ hk
      simp [GetSeed.get_put_data, get_data, MatVecCore_normal_lt, hk2]
    | TRANSPOSE =>
      have hdim : e.M = e.P ∧ e.N = e.K := by simpa [dimensions_agree, hop] using hd
      have hk2 : k < e.M := hdim.1 ▸ hk
      simp [GetSeed.get_put_data, get_data, MatVecCore_transpose_lt, hk2]
  · intro i j
    by_cases hop : e.op = MatOp.NORMAL <;>
      simp [MatVecMultExpr.reverse_increment_A, MatVecMultExpr.reverse, MatVecMultExpr.only_A,
        hA, hx, hop, GetSeed.put_data, GetSeed.get_data, get_data]
  · intro k
    by_cases hop : e.op = MatOp.NORMAL <;>
      simp [MatVecMultExpr.reverse_increment_x, MatVecMultExpr.reverse, MatVecMultExpr.only_x,
        MatVecMultExpr.not_op, hA, hx, hop, GetSeed.put_data, GetSeed.get_data, get_data]

/-- C10 at concrete inputs: for the `2 × 2` NORMAL node and a first-order phase on
`sampleOperands`, entry `0` of the tangent of `y` with both inputs active is the sum of
the entries written with one input active at a time, and the increments of `reverse` at
`A.b_01` and `x.b_1` agree with those of the nodes with one active input. -/
theorem MatVecMultExpr.forward_reverse_additive_witness :
    (∃ s2 sA sx, sampleNormal.forward ADorder.FIRST sampleOperands = some s2 ∧
      sampleNormal.only_A.forward ADorder.FIRST sampleOperands = some sA ∧
      sampleNormal.only_x.forward ADorder.FIRST sampleOperands = some sx ∧
      s2.y.bvalue 0 = sA.y.bvalue 0 + sx.y.bvalue 0) ∧
    sampleNormal.reverse_increment_A sampleOperands 0 1
      = sampleNormal.only_A.reverse_increment_A sampleOperands 0 1 ∧
    sampleNormal.reverse_increment_x sampleOperands 1
      = sampleNormal.only_x.reverse_increment_x sampleOperands 1 := by
  obtain ⟨⟨s2, sA, sx, h2, hA, hx, hk⟩, hRA, hRx⟩ :=
    MatVecMultExpr.forward_reverse_additive sampleNormal ADorder.FIRST sampleOperands rfl
      (by decide) rfl rfl
  exact ⟨⟨s2, sA, sx, h2, hA, hx, hk 0 (by decide)⟩, hRA 0 1, hRx 1⟩

/-- C11, the claim as stated fails: on `sampleOperands` the `2 × 2` NORMAL node with both
inputs active adds `ŷ_0·x_1 + ȳ_0·ẋ_1 = 16` to `A.h_01` where the node with only `A`
active adds `ŷ_0·x_1 = 12`, and adds `13` to `x.h_1` where the node with only `x` active
adds `0`. -/
theorem MatVecMultExpr.hreverse_additive_counterexample :
    sampleNormal.hreverse_increment_A sampleOperands 0 1 = 16 ∧
    sampleNormal.only_A.hreverse_increment_A sampleOperands 0 1 = 12 ∧
    sampleNormal.hreverse_increment_x sampleOperands 1 = 13 ∧
    sampleNormal.only_x.hreverse_increment_x sampleOperands 1 = 0 ∧
    ¬ (sampleNormal.hreverse_increment_A sampleOperands 0 1
        = sampleNormal.only_A.hreverse_increment_A sampleOperands 0 1 ∧
      sampleNormal.hreverse_increment_x sampleOperands 1
        = sampleNormal.only_x.hreverse_increment_x sampleOperands 1) := by
  decide

/-- C11, as amended: with both inputs active, what `hreverse` adds to an h-slot is what
the node with that input alone active adds, plus a cross term built from the tangent of
the other input and the adjoint seed `ȳ`: for `A.h_ij` the term `ȳ_i·ẋ_j` (NORMAL) or
`ẋ_i·ȳ_j` (TRANSPOSE), for `x.h` the term `Ȧᵀ·ȳ` (NORMAL) or `Ȧ·ȳ` (TRANSPOSE).  The
increments match the single-active ones exactly where the tangent of the other input is
zero. -/
theorem MatVecMultExpr.hreverse_additive_with_cross_terms {R : Type} [CommRing R]
    (e : MatVecMultExpr) (s : Operands R) (hA : e.adA = ADiffType.ACTIVE)
    (hx : e.adx = ADiffType.ACTIVE) (i j : Nat) (hi : i < e.N) (hj : j < e.M) :
    e.hreverse_increment_A s i j
      = e.only_A.hreverse_increment_A s i j
        + (if e.op = MatOp.NORMAL then s.y.bvalue i * s.x.pvalue j
            else s.x.pvalue i * s.y.bvalue j) ∧
    (e.op = MatOp.NORMAL →
      e.hreverse_increment_x s j
        = e.only_x.hreverse_increment_x s j
          + ∑ k ∈ Finset.range e.N, s.A.pvalue k j * s.y.bvalue k) ∧
    (e.op = MatOp.TRANSPOSE →
      e.hreverse_increment_x s i
        = e.only_x.hreverse_increment_x s i
          + ∑ k ∈ Finset.range e.M, s.A.pvalue i k * s.y.bvalue k) ∧
    ((∀ k, s.x.pvalue k = 0) →
      e.hreverse_increment_A s i j = e.only_A.hreverse_increment_A s i j) ∧
    ((∀ k l, s.A.pvalue k l = 0) →
      e.hreverse_increment_x s (if e.op = MatOp.NORMAL then j else i)
        = e.only_x.hreverse_increment_x s (if e.op = MatOp.NORMAL then j else i)) := by
  have hAo : e.only_A.adA = ADiffType.ACTIVE := hA
  have hxo : e.only_x.adx = ADiffType.ACTIVE := hx
  have h1 : e.hreverse_increment_A s i j
      = e.only_A.hreverse_increment_A s i j
        + (if e.op = MatOp.NORMAL then s.y.bvalue i * s.x.pvalue j
            else s.x.pvalue i * s.y.bvalue j) := by
    simp only [MatVecMultExpr.hreverse_increment_A,
      MatVecMultExpr.hreverse_A_hvalue e s hA i j hi hj,
      MatVecMultExpr.hreverse_A_hvalue e.only_A s hAo i j hi hj]
    simp only [MatVecMultExpr.only_A, hx, if_true]
    simp
    ring
  have h2 : e.op = MatOp.NORMAL →
      e.hreverse_increment_x s j
        = e.only_x.hreverse_increment_x s j
          + ∑ k ∈ Finset.range e.N, s.A.pvalue k j * s.y.bvalue k := by
    intro hop
    have hopo : e.only_x.op = MatOp.NORMAL := hop
    simp only [MatVecMultExpr.hreverse_increment_x,
      MatVecMultExpr.hreverse_x_hvalue_normal e s hop hx j hj,
      MatVecMultExpr.hreverse_x_hvalue_normal e.only_x s hopo hxo j hj]
    simp only [MatVecMultExpr.only_x, hA, if_true]
    simp
    ring
  have h3 : e.op = MatOp.TRANSPOSE →
      e.hreverse_increment_x s i
        = e.only_x.hreverse_increment_x s i
          + ∑ k ∈ Finset.range e.M, s.A.pvalue i k * s.y.bvalue k := by
    intro hop
    have hopo : e.only_x.op = MatOp.TRANSPOSE := hop
    simp only [MatVecMultExpr.hreverse_increment_x,
      MatVecMultExpr.hreverse_x_hvalue_transpose e s hop hx i hi,
      MatVecMultExpr.hreverse_x_hvalue_transpose e.only_x s hopo hxo i hi]
    simp only [MatVecMultExpr.only_x, hA, if_true]
    simp
    ring
  refine ⟨h1, h2, h3, ?_, ?_⟩
  · intro h0
    rw [h1]
    simp [h0]
  · intro h0
    cases hop : e.op with
    | NORMAL =>
      rw [if_pos rfl, h2 hop]
      simp [h0]
    | TRANSPOSE =>
      rw [if_neg (by decide), h3 hop]
      simp [h0]

/-- C11 as amended, at concrete inputs: for the `2 × 2` NORMAL node on `sampleOperands`
the increment of `A.h_01` is the single-active one plus `ȳ_0·ẋ_1 = 4`, and the increment
of `x.h_1` is the single-active one plus `Ȧ_01·ȳ_0 + Ȧ_11·ȳ_1 = 13`. -/
theorem MatVecMultExpr.hreverse_additive_with_cross_terms_witness :
    (0 < sampleNormal.N ∧ 1 < sampleNormal.M) ∧
    sampleNormal.hreverse_increment_A sampleOperands 0 1
      = sampleNormal.only_A.hreverse_increment_A sampleOperands 0 1 + 4 ∧
    sampleNormal.hreverse_increment_x sampleOperands 1
      = sampleNormal.only_x.hreverse_increment_x sampleOperands 1 + 13 := by
  have h := MatVecMultExpr.hreverse_additive_with_cross_terms sampleNormal sampleOperands
    rfl rfl 0 1 (by decide) (by decide)
  exact ⟨by decide, h.1.trans (by decide), (h.2.1 rfl).trans (by decide)⟩

/-! ## Shape checking at construction -/

/-- C12: shape compatibility is checked when the node is built.  For a matrix of `N` rows
and `M` columns, an input vector of size `K` and an output vector of size `P`, the
constructor of `MatVecMultExpr` and the plain `MatVecMult<op>` accept the instantiation
if and only if `op = NORMAL`, `M = K` and `N = P`, or `op = TRANSPOSE`, `M = P` and
`N = K`; an accepted node carries exactly the given parameters, and every other
combination is rejected. -/
theorem MatVecMultExpr.construct_accepts_iff {R : Type} [CommRing R] (op : MatOp)
    (N M K P : Nat) (adA adx : ADiffType) (order : ADorder) (A : Nat → Nat → R)
    (x y : Nat → R) :
    ((MatVecMultExpr.construct op N M K P adA adx order).isSome = true ↔
      (op = MatOp.NORMAL ∧ M = K ∧ N = P) ∨ (op = MatOp.TRANSPOSE ∧ M = P ∧ N = K)) ∧
    ((MatVecMult op N M K P A x y).isSome = true ↔
      (op = MatOp.NORMAL ∧ M = K ∧ N = P) ∨ (op = MatOp.TRANSPOSE ∧ M = P ∧ N = K)) ∧
    (∀ e, MatVecMultExpr.construct op N M K P adA adx order = some e →
      e = ⟨op, N, M, K, P, adA, adx, order⟩) ∧
    (¬ ((op = MatOp.NORMAL ∧ M = K ∧ N = P) ∨ (op = MatOp.TRANSPOSE ∧ M = P ∧ N = K)) →
      MatVecMultExpr.construct op N M K P adA adx order = none ∧
      MatVecMult op N M K P A x y = none) := by
  have hd : dimensions_agree op N M K P = true ↔
      (op = MatOp.NORMAL ∧ M = K ∧ N = P) ∨ (op = MatOp.TRANSPOSE ∧ M = P ∧ N = K) := by
    simp [dimensions_agree]
  refine ⟨?_, ?_, ?_, ?_⟩
  · rw [← hd]
    by_cases h : dimensions_agree op N M K P = true <;> simp [MatVecMultExpr.construct, h]
  · rw [← hd]
    by_cases h : dimensions_agree op N M K P = true <;> simp [MatVecMult, h]
  · intro e he
    by_cases h : dimensions_agree op N M K P = true
    · simp [MatVecMultExpr.construct, h] at he
      exact he.symm
    · simp [MatVecMultExpr.construct, h] at he
  · intro hn
    have h : ¬ dimensions_agree op N M K P = true := fun h => hn (hd.mp h)
    simp [MatVecMultExpr.construct, MatVecMult, h]

/-- C12 at concrete inputs: a `2 × 3` matrix with `x` of size 2 and `y` of size 3 is
accepted in TRANSPOSE mode and rejected in NORMAL mode; with `x` of size 3 and `y` of
size 2 it is the other way round. -/
theorem MatVecMultExpr.construct_accepts_iff_witness :
    (MatVecMultExpr.construct MatOp.TRANSPOSE 2 3 2 3 ADiffType.ACTIVE ADiffType.ACTIVE
      ADorder.SECOND) = some sampleTranspose ∧
    (MatVecMultExpr.construct MatOp.NORMAL 2 3 2 3 ADiffType.ACTIVE ADiffType.ACTIVE
      ADorder.SECOND) = none ∧
    (MatVecMultExpr.construct MatOp.NORMAL 2 3 3 2 ADiffType.ACTIVE ADiffType.ACTIVE
      ADorder.SECOND).isSome = true ∧
    (MatVecMultExpr.construct MatOp.TRANSPOSE 2 3 3 2 ADiffType.ACTIVE ADiffType.ACTIVE
      ADorder.SECOND) = none := by
  have h1 := MatVecMultExpr.construct_accepts_iff MatOp.NORMAL 2 3 2 3 ADiffType.ACTIVE
    ADiffType.ACTIVE ADorder.SECOND sampleOperands.A.value sampleOperands.x.value
    sampleOperands.y.value
  have h2 := MatVecMultExpr.construct_accepts_iff MatOp.TRANSPOSE 2 3 3 2 ADiffType.ACTIVE
    ADiffType.ACTIVE ADorder.SECOND sampleOperands.A.value sampleOperands.x.value
    sampleOperands.y.value
  exact ⟨rfl, (h1.2.2.2 (by decide)).1, by decide, (h2.2.2.2 (by decide)).1⟩

/-! ## The scalar dual-number type -/

/-- C13: the dual-scalar scenario over the reals.  For every real `x` and tangent `d`,
`sqrt(X * X + 1)` on the `ADScalar` `X` with value `x` and the single tangent `d` has
value `√(x² + 1)` and tangent `x·d / √(x² + 1)`; at `x = 2`, `d = 1` the value is `√5`,
between 2.2360679 and 2.2360680, and the tangent is `2 / √5`, between 0.894427 and
0.894428. -/
theorem ADScalar.dual_scalar_scenario (x d : ℝ) :
    (ADScalar.sqrt Real.sqrt
        (((⟨x, fun _ => d⟩ : ADScalar ℝ 1).mul ⟨x, fun _ => d⟩).add_scalar 1)).value
      = Real.sqrt (x ^ 2 + 1) ∧
    (ADScalar.sqrt Real.sqrt
        (((⟨x, fun _ => d⟩ : ADScalar ℝ 1).mul ⟨x, fun _ => d⟩).add_scalar 1)).deriv 0
      = x * d / Real.sqrt (x ^ 2 + 1) ∧
    (ADScalar.sqrt Real.sqrt
        (((⟨2, fun _ => 1⟩ : ADScalar ℝ 1).mul ⟨2, fun _ => 1⟩).add_scalar 1)).value
      = Real.sqrt 5 ∧
    (ADScalar.sqrt Real.sqrt
        (((⟨2, fun _ => 1⟩ : ADScalar ℝ 1).mul ⟨2, fun _ => 1⟩).add_scalar 1)).deriv 0
      = 2 / Real.sqrt 5 ∧
    (2.2360679 < Real.sqrt 5 ∧ Real.sqrt 5 < 2.2360680) ∧
    (0.894427 < 2 / Real.sqrt 5 ∧ 2 / Real.sqrt 5 < 0.894428) := by
  have hlo : (2.2360679 : ℝ) < Real.sqrt 5 := by
    rw [Real.lt_sqrt (by norm_num)]
    norm_num
  have hhi : Real.sqrt 5 < (2.2360680 : ℝ) := by
    rw [Real.sqrt_lt' (by norm_num)]
    norm_num
  have hpos : (0 : ℝ) < Real.sqrt 5 := by linarith
  refine ⟨?_, ?_, ?_, ?_, ⟨hlo, hhi⟩, ?_, ?_⟩
  · simp only [ADScalar.sqrt, ADScalar.add_scalar, ADScalar.mul, ADScalar.from_value]
    congr 1
    ring
  · simp only [ADScalar.sqrt, ADScalar.add_scalar, ADScalar.mul, ADScalar.from_value]
    have h1 : x * x + 1 = x ^ 2 + 1 := by ring
    have h2 : Real.sqrt (x ^ 2 + 1) ≠ 0 := by positivity
    rw [h1]
    field_simp
    ring
  · simp only [ADScalar.sqrt, ADScalar.add_scalar, ADScalar.mul, ADScalar.from_value]
    congr 1
    norm_num
  · simp only [ADScalar.sqrt, ADScalar.add_scalar, ADScalar.mul, ADScalar.from_value]
    have h1 : (2 : ℝ) * 2 + 1 = 5 := by norm_num
    rw [h1]
    field_simp
    ring
  · rw [lt_div_iff₀ hpos]
    nlinarith
  · rw [div_lt_iff₀ hpos]
    nlinarith

/-- C14: the comparison operators of `ADScalar` look at the value only.  For all `a`,
`b` (with tangent arrays of any lengths `N`, `M`) and every scalar `c`, each of `a < b`,
`a <= b`, `a > b`, `a >= b` is the same comparison of `a.value` with `b.value`, each of
`a < c`, `a <= c`, `a > c`, `a >= c` is the comparison of `a.value` with `c`, and
replacing the tangents of either operand by any others changes no result. -/
theorem ADScalar.comparisons_use_value_only {T : Type} [LinearOrder T] {N M : Nat}
    (a : ADScalar T N) (b : ADScalar T M) (c : T) :
    (a.lt b = decide (a.value < b.value) ∧ a.le b = decide (a.value ≤ b.value) ∧
      a.gt b = decide (a.value > b.value) ∧ a.ge b = decide (a.value ≥ b.value)) ∧
    (a.lt_scalar c = decide (a.value < c) ∧ a.le_scalar c = decide (a.value ≤ c) ∧
      a.gt_scalar c = decide (a.value > c) ∧ a.ge_scalar c = decide (a.value ≥ c)) ∧
    (∀ (da : Fin N → T) (db : Fin M → T),
      (ADScalar.mk a.value da).lt (ADScalar.mk b.value db) = a.lt b ∧
      (ADScalar.mk a.value da).le (ADScalar.mk b.value db) = a.le b ∧
      (ADScalar.mk a.value da).gt (ADScalar.mk b.value db) = a.gt b ∧
      (ADScalar.mk a.value da).ge (ADScalar.mk b.value db) = a.ge b ∧
      (ADScalar.mk a.value da).lt_scalar c = a.lt_scalar c ∧
      (ADScalar.mk a.value da).le_scalar c = a.le_scalar c ∧
      (ADScalar.mk a.value da).gt_scalar c = a.gt_scalar c ∧
      (ADScalar.mk a.value da).ge_scalar c = a.ge_scalar c) :=
  ⟨⟨rfl, rfl, rfl, rfl⟩, ⟨rfl, rfl, rfl, rfl⟩,
    fun _ _ => ⟨rfl, rfl, rfl, rfl, rfl, rfl, rfl, rfl⟩⟩

/-- C14 at concrete inputs: `6 + (1, 2)ε` against `3 + (5, 4)ε`, whose tangents are the
larger ones, and against a dual number with the same value `6` and no tangent at all. -/
theorem ADScalar.comparisons_use_value_only_witness :
    sampleDualL.lt sampleDualR = false ∧ sampleDualL.gt sampleDualR = true ∧
    sampleDualL.le (ADScalar.mk 6 Fin.elim0 : ADScalar Rat 0) = true ∧
    sampleDualL.ge (ADScalar.mk 6 Fin.elim0 : ADScalar Rat 0) = true ∧
    sampleDualL.lt_scalar 7 = true ∧ sampleDualL.ge_scalar 7 = false := by
  have h := ADScalar.comparisons_use_value_only sampleDualL sampleDualR 7
  have h0 := ADScalar.comparisons_use_value_only sampleDualL
    (ADScalar.mk 6 Fin.elim0 : ADScalar Rat 0) 7
  exact ⟨h.1.1.trans (by decide), h.1.2.2.1.trans (by decide), h0.1.2.1.trans (by decide),
    h0.1.2.2.2.trans (by decide), h.2.1.1.trans (by decide), h.2.1.2.2.2.trans (by decide)⟩

/-- C15, what the code does: `sin(ADScalar)` and `cos(ADScalar)` return no value for any
argument, although the local `out` they build holds the value `sin(r.value)` with the
tangents `cos(r.value)·r.deriv[i]`, respectively the value `cos(r.value)` with the
tangents `-sin(r.value)·r.deriv[i]`. -/
theorem ADScalar.sin_cos_return_nothing {X : Type} [Field X] {M : Nat} (sinX cosX : X → X)
    (r : ADScalar X M) :
    ADScalar.sin sinX cosX r = none ∧ ADScalar.cos sinX cosX r = none ∧
    (ADScalar.sin_out sinX cosX r).value = sinX r.value ∧
    (∀ i, (ADScalar.sin_out sinX cosX r).deriv i = cosX r.value * r.deriv i) ∧
    (ADScalar.cos_out sinX cosX r).value = cosX r.value ∧
    (∀ i, (ADScalar.cos_out sinX cosX r).deriv i = -sinX r.value * r.deriv i) :=
  ⟨rfl, rfl, rfl, fun _ => rfl, rfl, fun _ => rfl⟩

/-- C16: the quotient rule.  For all `l` and `r` with `r.value ≠ 0`, `l / r` has the value
`l.value / r.value` and, for every `i`, the tangent
`(l.deriv[i]·r.value - l.value·r.deriv[i]) / r.value²`. -/
theorem ADScalar.div_quotient_rule {X : Type} [Field X] {M : Nat} (l r : ADScalar X M)
    (hr : r.value ≠ 0) :
    (l.div r).value = l.value / r.value ∧
    ∀ i, (l.div r).deriv i
      = (l.deriv i * r.value - l.value * r.deriv i) / r.value ^ 2 := by
  constructor
  · simp only [ADScalar.div, ADScalar.from_value]
    field_simp
  · intro i
    simp only [ADScalar.div, ADScalar.from_value]
    field_simp
    ring

/-- C16 at concrete inputs: `(6 + (1, 2)ε) / (3 + (5, 4)ε)` has the value `2` and the
first tangent `(1·3 - 6·5) / 9 = -3`. -/
theorem ADScalar.div_quotient_rule_witness :
    sampleDualR.value ≠ 0 ∧ (sampleDualL.div sampleDualR).value = 2 ∧
    (sampleDualL.div sampleDualR).deriv 0 = -3 := by
  have h := ADScalar.div_quotient_rule sampleDualL sampleDualR (by decide)
  exact ⟨by decide, h.1.trans (by norm_num [sampleDualL, sampleDualR]),
    (h.2 0).trans (by norm_num [sampleDualL, sampleDualR])⟩

/-- C17: the power rule.  For every `r` with `r.value ≠ 0` and every natural exponent `n`,
`pow(r, n)` has the value `r.valueⁿ` and the tangents `n·r.value^(n-1)·r.deriv[i]`; in
particular `pow(r, 2)` equals `r * r` in value and in every tangent. -/
theorem ADScalar.pow_power_rule {X : Type} [Field X] {M : Nat} (r : ADScalar X M) (n : Nat)
    (hr : r.value ≠ 0) :
    (ADScalar.pow (fun (x : X) (k : Nat) => x ^ k) (fun k => (k : X)) r n).value
      = r.value ^ n ∧
    (∀ i, (ADScalar.pow (fun (x : X) (k : Nat) => x ^ k) (fun k => (k : X)) r n).deriv i
      = (n : X) * r.value ^ (n - 1) * r.deriv i) ∧
    (ADScalar.pow (fun (x : X) (k : Nat) => x ^ k) (fun k => (k : X)) r 2).value
      = (r.mul r).value ∧
    (∀ i, (ADScalar.pow (fun (x : X) (k : Nat) => x ^ k) (fun k => (k : X)) r 2).deriv i
      = (r.mul r).deriv i) := by
  refine ⟨rfl, ?_, ?_, ?_⟩
  · intro i
    simp only [ADScalar.pow, ADScalar.from_value]
    cases n with
    | zero => simp
    | succ k =>
      simp only [Nat.add_sub_cancel]
      field_simp
      ring
  · simp only [ADScalar.pow, ADScalar.mul, ADScalar.from_value]
    ring
  · intro i
    simp only [ADScalar.pow, ADScalar.mul, ADScalar.from_value]
    field_simp
    ring

/-- C17 at concrete inputs: `pow(3 + (5, 4)ε, 3)` has the value `27` and the second
tangent `3·3²·4 = 108`. -/
theorem ADScalar.pow_power_rule_witness :
    sampleDualR.value ≠ 0 ∧
    (ADScalar.pow (fun (x : Rat) (k : Nat) => x ^ k) (fun k => (k : Rat)) sampleDualR 3).value
      = 27 ∧
    (ADScalar.pow (fun (x : Rat) (k : Nat) => x ^ k) (fun k => (k : Rat)) sampleDualR 3).deriv 1
      = 108 := by
  have h := ADScalar.pow_power_rule sampleDualR 3 (by decide)
  exact ⟨by decide, h.1.trans (by norm_num [sampleDualR]),
    (h.2.1 1).trans (by norm_num [sampleDualR])⟩

/-! ## Two composed nodes -/

/-- C22: the chain rule through two nodes swept in reverse composition order.  For
`n1 : y = A·x` and `n2 : z = B·y` (NORMAL mode, all inputs active, `y` having as many
entries as `B` has columns), evaluated at composition, with every adjoint slot at zero
except the seed `z̄` in the b-slot of `z`, running `n2.reverse` and then `n1.reverse`
yields `y.b = Bᵀ·z̄`, `B.b = z̄·yᵀ` with `y = A·x`, `x.b = Aᵀ·Bᵀ·z̄` and
`A.b = (Bᵀ·z̄)·xᵀ`: the gradient of `z̄ᵀ·B·A·x` with respect to each operand. -/
theorem ChainOperands.reverse_sweep_chain_rule {R : Type} [CommRing R]
    (n1 n2 : MatVecMultExpr) (c : ChainOperands R)
    (hop1 : n1.op = MatOp.NORMAL) (hA1 : n1.adA = ADiffType.ACTIVE)
    (hx1 : n1.adx = ADiffType.ACTIVE) (hop2 : n2.op = MatOp.NORMAL)
    (hA2 : n2.adA = ADiffType.ACTIVE) (hx2 : n2.adx = ADiffType.ACTIVE)
    (hdim : n2.M = n1.N)
    (hAb : ∀ i j, c.A.bvalue i j = 0) (hxb : ∀ j, c.x.bvalue j = 0)
    (hyb : ∀ i, c.y.bvalue i = 0) (hBb : ∀ l i, c.B.bvalue l i = 0)
    (i j l : Nat) (hi : i < n1.N) (hj : j < n1.M) (hl : l < n2.N) :
    (ChainOperands.reverse_sweep n1 n2 (ChainOperands.evaluate n1 n2 c)).y.bvalue i
      = ∑ k ∈ Finset.range n2.N, c.B.value k i * c.z.bvalue k ∧
    (ChainOperands.reverse_sweep n1 n2 (ChainOperands.evaluate n1 n2 c)).B.bvalue l i
      = c.z.bvalue l * ∑ k ∈ Finset.range n1.M, c.A.value i k * c.x.value k ∧
    (ChainOperands.reverse_sweep n1 n2 (ChainOperands.evaluate n1 n2 c)).x.bvalue j
      = ∑ k ∈ Finset.range n1.N,
          c.A.value k j * ∑ m ∈ Finset.range n2.N, c.B.value m k * c.z.bvalue m ∧
    (ChainOperands.reverse_sweep n1 n2 (ChainOperands.evaluate n1 n2 c)).A.bvalue i j
      = (∑ k ∈ Finset.range n2.N, c.B.value k i * c.z.bvalue k) * c.x.value j := by
  have hi2 : i < n2.M := hdim ▸ hi
  -- the chain after composition
  have e_second : (ChainOperands.evaluate n1 n2 c).second
      = ⟨c.B, { c.y with value := (n1.eval c.first).y.value },
          (n2.eval (c.put_first (n1.eval c.first)).second).y⟩ := by
    simp [ChainOperands.evaluate, ChainOperands.second, ChainOperands.put_first,
      ChainOperands.put_second, ChainOperands.first, MatVecMultExpr.eval]
  have e_A : (ChainOperands.evaluate n1 n2 c).A = c.A := by
    simp [ChainOperands.evaluate, ChainOperands.put_first, ChainOperands.put_second,
      ChainOperands.first, MatVecMultExpr.eval]
  have e_x : (ChainOperands.evaluate n1 n2 c).x = c.x := by
    simp [ChainOperands.evaluate, ChainOperands.put_first, ChainOperands.put_second,
      ChainOperands.first, ChainOperands.second, MatVecMultExpr.eval]
  have e_zb : (n2.eval (c.put_first (n1.eval c.first)).second).y.bvalue = c.z.bvalue := by
    simp [ChainOperands.put_first, ChainOperands.second, MatVecMultExpr.eval]
  have e_yv : (n1.eval c.first).y.value i
      = ∑ k ∈ Finset.range n1.M, c.A.value i k * c.x.value k := by
    simp [MatVecMultExpr.eval, ChainOperands.first, get_data, hop1, MatVecCore_normal_lt, hi]
  -- the adjoint of `y` after `n2.reverse`
  have y1 : ∀ k, k < n1.N →
      (n2.reverse (ChainOperands.evaluate n1 n2 c).second).x.bvalue k
        = ∑ m ∈ Finset.range n2.N, c.B.value m k * c.z.bvalue m := by
    intro k hk
    rw [MatVecMultExpr.reverse_x_bvalue_normal n2 _ hop2 hx2 k (hdim ▸ hk), e_second]
    simp [hyb, e_zb]
  have hfirst : ((ChainOperands.evaluate n1 n2 c).put_second
        (n2.reverse (ChainOperands.evaluate n1 n2 c).second)).first
      = ⟨c.A, c.x, (n2.reverse (ChainOperands.evaluate n1 n2 c).second).x⟩ := by
    simp [ChainOperands.put_second, ChainOperands.first, e_A, e_x]
  obtain ⟨fy, -⟩ := MatVecMultExpr.reverse_frame n1
    (⟨c.A, c.x, (n2.reverse (ChainOperands.evaluate n1 n2 c).second).x⟩ : Operands R)
  refine ⟨?_, ?_, ?_, ?_⟩
  · simp only [ChainOperands.reverse_sweep, ChainOperands.put_first, hfirst, fy]
    exact y1 i hi
  · simp only [ChainOperands.reverse_sweep, ChainOperands.put_first, ChainOperands.put_second]
    rw [MatVecMultExpr.reverse_A_bvalue n2 _ hA2 l i hl hi2, e_second]
    simp [hop2, hBb, e_zb, e_yv]
  · simp only [ChainOperands.reverse_sweep, ChainOperands.put_first, hfirst]
    rw [MatVecMultExpr.reverse_x_bvalue_normal n1 _ hop1 hx1 j hj]
    simp only [hxb, zero_add]
    exact Finset.sum_congr rfl fun k hk => by rw [y1 k (Finset.mem_range.mp hk)]
  · simp only [ChainOperands.reverse_sweep, ChainOperands.put_first, hfirst]
    rw [MatVecMultExpr.reverse_A_bvalue n1 _ hA1 i j hi hj]
    simp [hop1, hAb, y1 i hi]

/-- C22 at concrete inputs: `A = [[1, 2], [3, 4]]`, `x = (5, 6)` (so `y = (17, 39)`),
`B = [[1, 0], [2, 1], [0, 3]]` and `z̄ = (1, 2, 3)` give `y.b_1 = 11`, `B.b_11 = 2·39`,
`x.b_0 = 1·5 + 3·11 = 38` and `A.b_10 = 11·5 = 55`. -/
theorem ChainOperands.reverse_sweep_chain_rule_witness :
    (1 < sampleNormal.N ∧ 0 < sampleNormal.M ∧ 1 < 3) ∧
    (ChainOperands.reverse_sweep sampleNormal
        ⟨MatOp.NORMAL, 3, 2, 2, 3, ADiffType.ACTIVE, ADiffType.ACTIVE, ADorder.FIRST⟩
        (ChainOperands.evaluate sampleNormal
          ⟨MatOp.NORMAL, 3, 2, 2, 3, ADiffType.ACTIVE, ADiffType.ACTIVE, ADorder.FIRST⟩
          sampleChain)).y.bvalue 1 = 11 ∧
    (ChainOperands.reverse_sweep sampleNormal
        ⟨MatOp.NORMAL, 3, 2, 2, 3, ADiffType.ACTIVE, ADiffType.ACTIVE, ADorder.FIRST⟩
        (ChainOperands.evaluate sampleNormal
          ⟨MatOp.NORMAL, 3, 2, 2, 3, ADiffType.ACTIVE, ADiffType.ACTIVE, ADorder.FIRST⟩
          sampleChain)).B.bvalue 1 1 = 78 ∧
    (ChainOperands.reverse_sweep sampleNormal
        ⟨MatOp.NORMAL, 3, 2, 2, 3, ADiffType.ACTIVE, ADiffType.ACTIVE, ADorder.FIRST⟩
        (ChainOperands.evaluate sampleNormal
          ⟨MatOp.NORMAL, 3, 2, 2, 3, ADiffType.ACTIVE, ADiffType.ACTIVE, ADorder.FIRST⟩
          sampleChain)).x.bvalue 0 = 38 ∧
    (ChainOperands.reverse_sweep sampleNormal
        ⟨MatOp.NORMAL, 3, 2, 2, 3, ADiffType.ACTIVE, ADiffType.ACTIVE, ADorder.FIRST⟩
        (ChainOperands.evaluate sampleNormal
          ⟨MatOp.NORMAL, 3, 2, 2, 3, ADiffType.ACTIVE, ADiffType.ACTIVE, ADorder.FIRST⟩
          sampleChain)).A.bvalue 1 0 = 55 := by
  have h := ChainOperands.reverse_sweep_chain_rule sampleNormal
    ⟨MatOp.NORMAL, 3, 2, 2, 3, ADiffType.ACTIVE, ADiffType.ACTIVE, ADorder.FIRST⟩ sampleChain
    rfl rfl rfl rfl rfl rfl rfl (fun _ _ => rfl) (fun _ => rfl) (fun _ => rfl)
    (fun _ _ => rfl) 1 0 1 (by decide) (by decide) (by decide)
  exact ⟨by decide, h.1.trans (by decide), h.2.1.trans (by decide), h.2.2.1.trans (by decide),
    h.2.2.2.trans (by decide)⟩

/-! ## Arithmetic of the scalar dual-number type -/

/-- Two dual numbers with the same value and the same tangents are equal. -/
theorem ADScalar.eq_of_components {T : Type} {N : Nat} (a b : ADScalar T N)
    (hv : a.value = b.value) (hd : ∀ i, a.deriv i = b.deriv i) : a = b := by
  cases a
  cases b
  simp only [ADScalar.mk.injEq]
  exact ⟨hv, funext hd⟩

/-- C23: absolute value on `ADScalar`.  For every `r`, `fabs(r)` has the value
`|r.value|` and the tangents `-r.deriv[i]` when `r.value < 0` and `r.deriv[i]` otherwise;
at `r.value = 0` the tangents pass through unchanged, and `fabs(fabs(r))` is `fabs(r)`. -/
theorem ADScalar.fabs_rule {X : Type} [LinearOrderedField X] {M : Nat} (r : ADScalar X M) :
    (ADScalar.fabs (fun x => |x|) r).value = |r.value| ∧
    (r.value < 0 → ∀ i, (ADScalar.fabs (fun x => |x|) r).deriv i = -r.deriv i) ∧
    (¬ r.value < 0 → ∀ i, (ADScalar.fabs (fun x => |x|) r).deriv i = r.deriv i) ∧
    (r.value = 0 → ∀ i, (ADScalar.fabs (fun x => |x|) r).deriv i = r.deriv i) ∧
    ADScalar.fabs (fun x => |x|) (ADScalar.fabs (fun x => |x|) r)
      = ADScalar.fabs (fun x => |x|) r := by
  have hneg : r.value < 0 → ∀ i, (ADScalar.fabs (fun x => |x|) r).deriv i = -r.deriv i := by
    intro h i
    simp [ADScalar.fabs, h]
  have hpos : ¬ r.value < 0 → ∀ i, (ADScalar.fabs (fun x => |x|) r).deriv i = r.deriv i := by
    intro h i
    simp [ADScalar.fabs, h]
  refine ⟨rfl, hneg, hpos, fun h0 => hpos (by simp [h0]), ?_⟩
  apply ADScalar.eq_of_components
  · simp [ADScalar.fabs, ADScalar.from_value]
  · intro i
    have h : ¬ (ADScalar.fabs (fun x => |x|) r).value < 0 := by
      simp [ADScalar.fabs, ADScalar.from_value]
    simp only [ADScalar.fabs, ADScalar.from_value] at h ⊢
    simp [h]

/-- C23 at concrete inputs: `fabs(-3 + (5, 4)ε) = 3 + (-5, -4)ε`, and
`fabs(0 + (5, 4)ε) = 0 + (5, 4)ε`. -/
theorem ADScalar.fabs_rule_witness :
    (ADScalar.fabs (fun x => |x|) (ADScalar.mk (-3) sampleDualR.deriv)).value = 3 ∧
    (ADScalar.fabs (fun x => |x|) (ADScalar.mk (-3) sampleDualR.deriv)).deriv 0 = -5 ∧
    (ADScalar.fabs (fun x => |x|) (ADScalar.mk 0 sampleDualR.deriv)).deriv 1 = 4 := by
  have h := ADScalar.fabs_rule (ADScalar.mk (-3) sampleDualR.deriv)
  have h0 := ADScalar.fabs_rule (ADScalar.mk 0 sampleDualR.deriv)
  exact ⟨h.1.trans (by norm_num), (h.2.1 (by norm_num) 0).trans (by norm_num [sampleDualR]),
    (h0.2.2.2.1 rfl 1).trans (by norm_num [sampleDualR])⟩

/-- C27: compound assignment on `ADScalar` agrees with the binary operators.  The state of
`a` after `a += b`, `a -= b`, `a *= b`, `a /= b` is `a + b`, `a - b`, `a * b`, `a / b`, in
value and in every tangent (the tangent updates of `*=` and `/=` use the value of `a`
from before the update), and for a scalar `c` the state after `a op= c` is `a op c`.  The
equalities hold for every `b` and `c`, those with `b.value ≠ 0` and `c ≠ 0` included. -/
theorem ADScalar.compound_assignment_agrees {T : Type} [Field T] {N : Nat}
    (a b : ADScalar T N) (c : T) :
    (a.add_assign b = a.add b ∧ a.sub_assign b = a.sub b ∧ a.mul_assign b = a.mul b ∧
      a.div_assign b = a.div b) ∧
    (a.add_assign_scalar c = a.add_scalar c ∧ a.sub_assign_scalar c = a.sub_scalar c ∧
      a.mul_assign_scalar c = a.mul_scalar c ∧ a.div_assign_scalar c = a.div_scalar c) := by
  refine ⟨⟨?_, ?_, ?_, ?_⟩, ?_, ?_, ?_, ?_⟩
  · exact ADScalar.eq_of_components _ _ rfl fun _ => rfl
  · exact ADScalar.eq_of_components _ _ rfl fun _ => rfl
  · refine ADScalar.eq_of_components _ _ rfl fun i => ?_
    simp only [ADScalar.mul_assign, ADScalar.mul, ADScalar.from_value]
    ring
  · refine ADScalar.eq_of_components _ _ ?_ fun _ => rfl
    simp only [ADScalar.div_assign, ADScalar.div, ADScalar.from_value]
    ring
  · exact ADScalar.eq_of_components _ _ rfl fun _ => rfl
  · exact ADScalar.eq_of_components _ _ rfl fun _ => rfl
  · refine ADScalar.eq_of_components _ _ rfl fun i => ?_
    simp only [ADScalar.mul_assign_scalar, ADScalar.mul_scalar, ADScalar.from_value]
    ring
  · refine ADScalar.eq_of_components _ _ ?_ fun _ => rfl
    simp only [ADScalar.div_assign_scalar, ADScalar.div_scalar, ADScalar.from_value]
    ring

/-- C27 at concrete inputs: after `a *= b` with `a = 6 + (1, 2)ε` and `b = 3 + (5, 4)ε`
the value is `18` and the first tangent `3·1 + 6·5 = 33`; after `a /= b` the value is `2`
and the first tangent `1/3 - (6/9)·5 = -3`. -/
theorem ADScalar.compound_assignment_agrees_witness :
    (sampleDualL.mul_assign sampleDualR).value = 18 ∧
    (sampleDualL.mul_assign sampleDualR).deriv 0 = 33 ∧
    (sampleDualL.div_assign sampleDualR).value = 2 ∧
    (sampleDualL.div_assign sampleDualR).deriv 0 = -3 := by
  have h := ADScalar.compound_assignment_agrees sampleDualL sampleDualR 2
  rw [h.1.2.2.1, h.1.2.2.2]
  norm_num [ADScalar.mul, ADScalar.div, ADScalar.from_value, sampleDualL, sampleDualR]

/-- C28: mixed scalar/`ADScalar` arithmetic agrees with promoting the scalar to a
constant.  For every scalar `c` and every `r`, each of `c + r`, `r + c`, `c - r`, `r - c`,
`c * r`, `r * c`, `c / r` and `r / c` is the operation on two `ADScalar`s applied to
`ADScalar(c)` (value `c`, all tangents zero) and `r`, in value and in every tangent.  The
equalities hold for every `r` and `c`, those with `r.value ≠ 0` and `c ≠ 0` included. -/
theorem ADScalar.mixed_arithmetic_promotes {X : Type} [Field X] {M : Nat} (c : X)
    (r : ADScalar X M) :
    ADScalar.scalar_add c r = (ADScalar.from_value c).add r ∧
    r.add_scalar c = r.add (ADScalar.from_value c) ∧
    ADScalar.scalar_sub c r = (ADScalar.from_value c).sub r ∧
    r.sub_scalar c = r.sub (ADScalar.from_value c) ∧
    ADScalar.scalar_mul c r = (ADScalar.from_value c).mul r ∧
    r.mul_scalar c = r.mul (ADScalar.from_value c) ∧
    ADScalar.scalar_div c r = (ADScalar.from_value c).div r ∧
    r.div_scalar c = r.div (ADScalar.from_value c) := by
  refine ⟨?_, ?_, ?_, ?_, ?_, ?_, ?_, ?_⟩ <;>
    refine ADScalar.eq_of_components _ _ ?_ fun i => ?_ <;>
    simp only [ADScalar.scalar_add, ADScalar.add_scalar, ADScalar.scalar_sub,
      ADScalar.sub_scalar, ADScalar.scalar_mul, ADScalar.mul_scalar, ADScalar.scalar_div,
      ADScalar.div_scalar, ADScalar.add, ADScalar.sub, ADScalar.mul, ADScalar.div,
      ADScalar.from_value] <;>
    ring

/-- C28 at concrete inputs: `2 / (3 + (5, 4)ε)` has the value `2/3` and the first tangent
`-(2/9)·5`, as `ADScalar(2) / (3 + (5, 4)ε)` has. -/
theorem ADScalar.mixed_arithmetic_promotes_witness :
    (ADScalar.scalar_div 2 sampleDualR).value = 2 / 3 ∧
    (ADScalar.scalar_div 2 sampleDualR).deriv 0 = -10 / 9 ∧
    ((ADScalar.from_value 2).div sampleDualR).deriv 0 = -10 / 9 := by
  have h := ADScalar.mixed_arithmetic_promotes 2 sampleDualR
  rw [← h.2.2.2.2.2.2.1]
  norm_num [ADScalar.scalar_div, ADScalar.from_value, sampleDualR]

/-- C29: division undoes multiplication on `ADScalar`.  For all `a` and `b` with
`b.value ≠ 0`, `(a / b) * b = a` and `(a * b) / b = a`, in value and in every tangent. -/
theorem ADScalar.div_undoes_mul {X : Type} [Field X] {M : Nat} (a b : ADScalar X M)
    (hb : b.value ≠ 0) :
    (a.div b).mul b = a ∧ (a.mul b).div b = a := by
  constructor
  · refine ADScalar.eq_of_components _ _ ?_ fun i => ?_
    · simp only [ADScalar.mul, ADScalar.div, ADScalar.from_value]
      field_simp
    · simp only [ADScalar.mul, ADScalar.div, ADScalar.from_value]
      field_simp
      ring
  · refine ADScalar.eq_of_components _ _ ?_ fun i => ?_
    · simp only [ADScalar.mul, ADScalar.div, ADScalar.from_value]
      field_simp
    · simp only [ADScalar.mul, ADScalar.div, ADScalar.from_value]
      field_simp
      ring

/-- C29 at concrete inputs: with `a = 6 + (1, 2)ε` and `b = 3 + (5, 4)ε`, both
`(a / b) * b` and `(a * b) / b` are `a` again. -/
theorem ADScalar.div_undoes_mul_witness :
    sampleDualR.value ≠ 0 ∧ (sampleDualL.div sampleDualR).mul sampleDualR = sampleDualL ∧
    (sampleDualL.mul sampleDualR).div sampleDualR = sampleDualL :=
  ⟨by decide, ADScalar.div_undoes_mul sampleDualL sampleDualR (by decide)⟩

/-- C30: `ADScalar` arithmetic obeys the commutative-ring laws of dual numbers.  For all
`a`, `b`, `c` with the same number of tangents, `a * b = b * a`,
`(a * b) * c = a * (b * c)` and `a * (b + c) = a * b + a * c`, in value and in every
tangent. -/
theorem ADScalar.ring_laws {X : Type} [CommRing X] {M : Nat} (a b c : ADScalar X M) :
    a.mul b = b.mul a ∧ (a.mul b).mul c = a.mul (b.mul c) ∧
    a.mul (b.add c) = (a.mul b).add (a.mul c) := by
  refine ⟨?_, ?_, ?_⟩ <;>
    refine ADScalar.eq_of_components _ _ ?_ fun i => ?_ <;>
    simp only [ADScalar.mul, ADScalar.add, ADScalar.from_value] <;>
    ring

/-- C30 at concrete inputs: `(6 + (1, 2)ε) * (3 + (5, 4)ε)` is `18 + (33, 30)ε` in either
order of the factors. -/
theorem ADScalar.ring_laws_witness :
    (sampleDualL.mul sampleDualR).value = 18 ∧ (sampleDualR.mul sampleDualL).value = 18 ∧
    (sampleDualL.mul sampleDualR).deriv 1 = 30 ∧ (sampleDualR.mul sampleDualL).deriv 1 = 30 := by
  have h := (ADScalar.ring_laws sampleDualL sampleDualR sampleDualR).1
  rw [← h]
  norm_num [ADScalar.mul, ADScalar.from_value, sampleDualL, sampleDualR]

/-! ## The finite-element model -/

/-- C24, what the code does: the loop that copies the boundary conditions runs over
`i < nnodes`, not `i < nbcs`.  With `nnodes = 1` and `nbcs = 2` the constructor returns a
model whose row `0` of `bcs` is copied while `bcs(1, 0)` and `bcs(1, 1)` are never
written; with `nnodes = 2` and `nbcs = 1` it reads `bcs_` and writes `bcs` at row `1`,
outside both arrays, and has no defined result, also when `bcs_` is long enough for the
read. -/
theorem FEModel.construct_bcs_loop_bound :
    ((FEModel.construct 1 [1, 2, 3] 2 [10, 11, 12, 13] : Option (FEModel Int Int)).map
      (fun m => (m.nbcs, m.bcs.extent))) = some (2, 2) ∧
    ((FEModel.construct 1 [1, 2, 3] 2 [10, 11, 12, 13] : Option (FEModel Int Int)).map
      (fun m => (m.bcs.entry 0 0, m.bcs.entry 0 1))) = some (some 10, some 11) ∧
    ((FEModel.construct 1 [1, 2, 3] 2 [10, 11, 12, 13] : Option (FEModel Int Int)).map
      (fun m => (m.bcs.entry 1 0, m.bcs.entry 1 1))) = some (none, none) ∧
    (FEModel.construct 2 [1, 2, 3, 4, 5, 6] 1 [10, 11] : Option (FEModel Int Int)) = none ∧
    (FEModel.construct 2 [1, 2, 3, 4, 5, 6] 1 [10, 11, 12, 13] : Option (FEModel Int Int))
      = none := by
  refine ⟨by decide, by decide, by decide, ?_, ?_⟩
  · cases h : (FEModel.construct 2 [1, 2, 3, 4, 5, 6] 1 [10, 11] : Option (FEModel Int Int)) with
    | none => rfl
    | some m =>
      have h2 : (FEModel.construct 2 [1, 2, 3, 4, 5, 6] 1 [10, 11] :
          Option (FEModel Int Int)).isSome = false := by decide
      rw [h] at h2
      exact absurd h2 (by simp)
  · cases h : (FEModel.construct 2 [1, 2, 3, 4, 5, 6] 1 [10, 11, 12, 13] :
        Option (FEModel Int Int)) with
    | none => rfl
    | some m =>
      have h2 : (FEModel.construct 2 [1, 2, 3, 4, 5, 6] 1 [10, 11, 12, 13] :
          Option (FEModel Int Int)).isSome = false := by decide
      rw [h] at h2
      exact absurd h2 (by simp)

end A2D

/-! ## The command-line parser -/

/-- The arguments the constructor keeps are those after the program name. -/
theorem ArgumentParser.construct_args (argv : List String) :
    (ArgumentParser.construct argv).args = argv.drop 1 :=
  rfl

/-- A token `o=v` is never the option `o` itself. -/
theorem option_ne_equals_form (o v : String) : o ++ "=" ++ v ≠ o := by
  intro h
  have hl := congrArg String.length h
  simp only [String.length_append] at hl
  have h1 : "=".length = 1 := rfl
  omega

/-- C18: `parse_option(option, default_val)` returns `default_val` unchanged whenever
`option` is not among the arguments of the parser (those of `argv` after the program
name), for every argument list and every value type; the arguments are left as they
were. -/
theorem ArgumentParser.parse_option_absent {V : Type} (ty : ValType V) (p : ArgumentParser)
    (option : String) (default_val : V) (h : option ∉ p.args) :
    (p.parse_option ty option default_val).1 = Outcome.returned default_val ∧
    (p.parse_option ty option default_val).2.args = p.args := by
  have hi : p.args.indexOf option = p.args.length := List.indexOf_eq_length.mpr h
  simp [ArgumentParser.parse_option, hi]

/-- C18 at concrete inputs: with the command line `prog --nx 7 --prefix out` the options
`--ny` (an `int`), `--lx` (a `double`, here a rational), `--name` (a string) and `--flag`
(another type) are absent and each call returns its default. -/
theorem ArgumentParser.parse_option_absent_witness :
    "--ny" ∉ (ArgumentParser.construct ["prog", "--nx", "7", "--prefix", "out"]).args ∧
    ((ArgumentParser.construct ["prog", "--nx", "7", "--prefix", "out"]).parse_option
      (ValType.int (fun _ _ => "") (fun _ => Outcome.thrown "stoi")) "--ny" 5).1
      = Outcome.returned 5 ∧
    ((ArgumentParser.construct ["prog", "--nx", "7", "--prefix", "out"]).parse_option
      (ValType.double (fun _ (_ : Rat) => "") (fun _ => Outcome.thrown "stod")) "--lx"
      (17 / 5)).1 = Outcome.returned (17 / 5) ∧
    ((ArgumentParser.construct ["prog", "--nx", "7", "--prefix", "out"]).parse_option
      (ValType.string (fun _ _ => "")) "--name" "results").1 = Outcome.returned "results" ∧
    ((ArgumentParser.construct ["prog", "--nx", "7", "--prefix", "out"]).parse_option
      (ValType.other "") "--flag" true).1 = Outcome.returned true :=
  ⟨by decide,
    (ArgumentParser.parse_option_absent _ _ "--ny" 5 (by decide)).1,
    (ArgumentParser.parse_option_absent _ _ "--lx" (17 / 5) (by decide)).1,
    (ArgumentParser.parse_option_absent _ _ "--name" "results" (by decide)).1,
    (ArgumentParser.parse_option_absent _ _ "--flag" true (by decide)).1⟩

/-- C19, what the code does: an option given as `--option=val` is not found.  With the
command line `prog --nx=7`, `parse_option("--nx", 5)` returns the default `5`, whatever
`std::stoi` would make of a token; and for every option `o`, value text `v`, value type
and default `d`, the command line `prog o=v` makes `parse_option(o, d)` return `d`. -/
theorem ArgumentParser.parse_option_equals_form_returns_default :
    (∀ (snprintf : String → Int → String) (stoi : String → Outcome Int),
      ((ArgumentParser.construct ["prog", "--nx=7"]).parse_option
        (ValType.int snprintf stoi) "--nx" 5).1 = Outcome.returned 5) ∧
    (∀ (V : Type) (ty : ValType V) (prog o v : String) (d : V),
      ((ArgumentParser.construct [prog, o ++ "=" ++ v]).parse_option ty o d).1
        = Outcome.returned d) := by
  constructor
  · intro snprintf stoi
    have hi : (ArgumentParser.construct ["prog", "--nx=7"]).args.indexOf "--nx"
        = (ArgumentParser.construct ["prog", "--nx=7"]).args.length := by decide
    simp [ArgumentParser.parse_option, hi]
  · intro V ty prog o v d
    have hmem : o ∉ (ArgumentParser.construct [prog, o ++ "=" ++ v]).args := by
      simp only [ArgumentParser.construct_args, List.drop_succ_cons, List.drop_zero,
        List.mem_singleton]
      exact fun h => option_ne_equals_form o v h.symm
    have hi : (ArgumentParser.construct [prog, o ++ "=" ++ v]).args.indexOf o
        = (ArgumentParser.construct [prog, o ++ "=" ++ v]).args.length :=
      List.indexOf_eq_length.mpr hmem
    simp [ArgumentParser.parse_option, hi]

/-- C20: `parse_option(option)`, the form without a value, returns `true` if and only if
some argument of the parser is exactly `option`.  For a command line `prog :: rest` that
is membership in `rest`: the program name `argv[0]` is never matched, and on an empty
command line the answer is `false`. -/
theorem ArgumentParser.parse_option_flag_iff (p : ArgumentParser) (option : String) :
    ((p.parse_option_flag option).1 = true ↔ option ∈ p.args) ∧
    (∀ (prog : String) (rest : List String),
      ((ArgumentParser.construct (prog :: rest)).parse_option_flag option).1 = true
        ↔ option ∈ rest) ∧
    ((ArgumentParser.construct []).parse_option_flag option).1 = false := by
  have key : ∀ q : ArgumentParser, (q.parse_option_flag option).1 = true ↔ option ∈ q.args := by
    intro q
    by_cases h : option ∈ q.args
    · have hi : q.args.indexOf option ≠ q.args.length :=
        Nat.ne_of_lt (List.indexOf_lt_length.mpr h)
      simp [ArgumentParser.parse_option_flag, hi, h]
    · have hi : q.args.indexOf option = q.args.length := List.indexOf_eq_length.mpr h
      simp [ArgumentParser.parse_option_flag, hi, h]
  refine ⟨key p, fun prog rest => ?_, ?_⟩
  · rw [key]
    rfl
  · have h := key (ArgumentParser.construct [])
    cases hb : ((ArgumentParser.construct []).parse_option_flag option).1 with
    | false => rfl
    | true => exact absurd (h.mp hb) (by simp [ArgumentParser.construct])

/-- C20 at concrete inputs: `--grad_check_only` given as an argument is found; on the
command line `--nx --nx=7 x--nx` the option `--nx` is not, since it is only the program
name and a part of longer tokens. -/
theorem ArgumentParser.parse_option_flag_iff_witness :
    ((ArgumentParser.construct ["prog", "--nx", "7", "--grad_check_only"]).parse_option_flag
      "--grad_check_only").1 = true ∧
    ((ArgumentParser.construct ["--nx", "--nx=7", "x--nx"]).parse_option_flag "--nx").1
      = false := by
  constructor
  · exact ((ArgumentParser.parse_option_flag_iff
      (ArgumentParser.construct ["prog", "--nx", "7", "--grad_check_only"])
      "--grad_check_only").2.1 "prog" ["--nx", "7", "--grad_check_only"]).mpr (by decide)
  · have h := (ArgumentParser.parse_option_flag_iff
      (ArgumentParser.construct ["--nx", "--nx=7", "x--nx"]) "--nx").2.1 "--nx"
      ["--nx=7", "x--nx"]
    cases hb : ((ArgumentParser.construct ["--nx", "--nx=7", "x--nx"]).parse_option_flag
      "--nx").1 with
    | false => rfl
    | true => exact absurd (h.mp hb) (by decide)

/-- The position `std::find` gives for an option whose first occurrence follows `pre`. -/
theorem indexOf_first_occurrence (option : String) (pre rest : List String)
    (hpre : option ∉ pre) : (pre ++ option :: rest).indexOf option = pre.length := by
  rw [List.indexOf_append_of_not_mem hpre, List.indexOf_cons_self, Nat.add_zero]

/-- The argument right after an option that follows `pre`. -/
theorem get_after_first_occurrence (option token : String) (pre rest : List String) :
    (pre ++ option :: token :: rest).get? (pre.length + 1) = some token := by
  rw [List.get?_eq_getElem?, List.getElem?_append_right (Nat.le_add_right _ _)]
  simp

/-- There is no argument after an option that is the last one. -/
theorem get_after_last (option : String) (pre : List String) :
    (pre ++ [option]).get? (pre.length + 1) = none := by
  simp

/-- C21: when `option` occurs among the arguments and its first occurrence is followed by
another token, `parse_option(option, default_val)` returns that token converted to the
value type: the token itself for `std::string`, `std::stoi` of it for `int`, `std::stod`
of it for `double`.  The arguments `rest` after the token, further occurrences of
`option` among them, and the default play no part. -/
theorem ArgumentParser.parse_option_present (p : ArgumentParser) (option token : String)
    (pre rest : List String) (hpre : option ∉ pre)
    (hargs : p.args = pre ++ option :: token :: rest) :
    (∀ (snprintf : String → String → String) (default_val : String),
      (p.parse_option (ValType.string snprintf) option default_val).1
        = Outcome.returned token) ∧
    (∀ (snprintf : String → Int → String) (stoi : String → Outcome Int) (default_val : Int),
      (p.parse_option (ValType.int snprintf stoi) option default_val).1 = stoi token) ∧
    (∀ (D : Type) (snprintf : String → D → String) (stod : String → Outcome D)
      (default_val : D),
      (p.parse_option (ValType.double snprintf stod) option default_val).1 = stod token) := by
  have hi : p.args.indexOf option = pre.length := by
    rw [hargs]
    exact indexOf_first_occurrence option pre _ hpre
  have hne : pre.length ≠ p.args.length := by
    rw [hargs]
    simp
  have hg : p.args.get? (pre.length + 1) = some token := by
    rw [hargs]
    exact get_after_first_occurrence option token pre rest
  refine ⟨?_, ?_, ?_⟩
  · intro snprintf default_val
    simp only [ArgumentParser.parse_option, hi, hne, hg, ne_eq, not_false_eq_true, if_true]
  · intro snprintf stoi default_val
    simp only [ArgumentParser.parse_option, hi, hne, hg, ne_eq, not_false_eq_true, if_true]
  · intro D snprintf stod default_val
    simp only [ArgumentParser.parse_option, hi, hne, hg, ne_eq, not_false_eq_true, if_true]

/-- C21 at concrete inputs: with the command line `prog --nx 7 --prefix out --nx 9`,
`parse_option("--nx", 5)` returns `7`, the value after the first `--nx`, and
`parse_option("--prefix", "results")` returns `out`. -/
theorem ArgumentParser.parse_option_present_witness :
    ((ArgumentParser.construct ["prog", "--nx", "7", "--prefix", "out", "--nx", "9"]).parse_option
      (ValType.int (fun _ _ => "") sample_stoi) "--nx" 5).1 = Outcome.returned 7 ∧
    ((ArgumentParser.construct ["prog", "--nx", "7", "--prefix", "out", "--nx", "9"]).parse_option
      (ValType.string (fun _ _ => "")) "--prefix" "results").1 = Outcome.returned "out" := by
  have h1 := ArgumentParser.parse_option_present
    (ArgumentParser.construct ["prog", "--nx", "7", "--prefix", "out", "--nx", "9"]) "--nx" "7"
    [] ["--prefix", "out", "--nx", "9"] (by decide) rfl
  have h2 := ArgumentParser.parse_option_present
    (ArgumentParser.construct ["prog", "--nx", "7", "--prefix", "out", "--nx", "9"]) "--prefix"
    "out" ["--nx", "7"] ["--nx", "9"] (by decide) rfl
  exact ⟨(h1.2.1 _ sample_stoi 5).trans (by rfl), h2.1 _ "results"⟩

/-- C25, what the code does: when the first occurrence of `option` is the last argument,
`*(it + 1)` is `*args.end()`.  With the command line `prog --nx`, `parse_option("--nx", 5)`
reads past the end of the arguments, and so does every call for an `int`, a `double` or
a `std::string` whose option occurs first as the last argument. -/
theorem ArgumentParser.parse_option_last_reads_past_the_end :
    (∀ (snprintf : String → Int → String) (stoi : String → Outcome Int),
      ((ArgumentParser.construct ["prog", "--nx"]).parse_option
        (ValType.int snprintf stoi) "--nx" 5).1 = Outcome.past_the_end) ∧
    (∀ (p : ArgumentParser) (option : String) (pre : List String), option ∉ pre →
      p.args = pre ++ [option] →
      (∀ (snprintf : String → String → String) (default_val : String),
        (p.parse_option (ValType.string snprintf) option default_val).1
          = Outcome.past_the_end) ∧
      (∀ (snprintf : String → Int → String) (stoi : String → Outcome Int)
        (default_val : Int),
        (p.parse_option (ValType.int snprintf stoi) option default_val).1
          = Outcome.past_the_end) ∧
      (∀ (D : Type) (snprintf : String → D → String) (stod : String → Outcome D)
        (default_val : D),
        (p.parse_option (ValType.double snprintf stod) option default_val).1
          = Outcome.past_the_end)) := by
  have key : ∀ (p : ArgumentParser) (option : String) (pre : List String), option ∉ pre →
      p.args = pre ++ [option] →
      (∀ (snprintf : String → String → String) (default_val : String),
        (p.parse_option (ValType.string snprintf) option default_val).1
          = Outcome.past_the_end) ∧
      (∀ (snprintf : String → Int → String) (stoi : String → Outcome Int)
        (default_val : Int),
        (p.parse_option (ValType.int snprintf stoi) option default_val).1
          = Outcome.past_the_end) ∧
      (∀ (D : Type) (snprintf : String → D → String) (stod : String → Outcome D)
        (default_val : D),
        (p.parse_option (ValType.double snprintf stod) option default_val).1
          = Outcome.past_the_end) := by
    intro p option pre hpre hargs
    have hi : p.args.indexOf option = pre.length := by
      rw [hargs]
      exact indexOf_first_occurrence option pre [] hpre
    have hne : pre.length ≠ p.args.length := by
      rw [hargs]
      simp
    have hg : p.args.get? (pre.length + 1) = none := by
      rw [hargs]
      exact get_after_last option pre
    refine ⟨?_, ?_, ?_⟩
    · intro snprintf default_val
      simp only [ArgumentParser.parse_option, hi, hne, hg, ne_eq, not_false_eq_true, if_true]
    · intro snprintf stoi default_val
      simp only [ArgumentParser.parse_option, hi, hne, hg, ne_eq, not_false_eq_true, if_true]
    · intro D snprintf stod default_val
      simp only [ArgumentParser.parse_option, hi, hne, hg, ne_eq, not_false_eq_true, if_true]
  refine ⟨fun snprintf stoi => ?_, key⟩
  exact (key (ArgumentParser.construct ["prog", "--nx"]) "--nx" [] (by decide) rfl).2.1
    snprintf stoi 5

/-- C26: for a value type other than `int`, `double` and `std::string`,
`parse_option(option, default_val)` throws the runtime error `invalid type` if and only
if `option` occurs among the arguments; when `option` is absent it returns `default_val`
without error. -/
theorem ArgumentParser.parse_option_other_type {V : Type} (p : ArgumentParser)
    (option info : String) (default_val : V) :
    ((p.parse_option (ValType.other info) option default_val).1
        = Outcome.thrown "invalid type" ↔ option ∈ p.args) ∧
    (option ∉ p.args →
      (p.parse_option (ValType.other info) option default_val).1
        = Outcome.returned default_val) := by
  by_cases h : option ∈ p.args
  · have hi : p.args.indexOf option ≠ p.args.length :=
      Nat.ne_of_lt (List.indexOf_lt_length.mpr h)
    simp [ArgumentParser.parse_option, hi, h]
  · have hi : p.args.indexOf option = p.args.length := List.indexOf_eq_length.mpr h
    simp [ArgumentParser.parse_option, hi, h]

/-- C26 at concrete inputs: with a `bool` default, `--flag` on the command line makes the
call throw `invalid type`, also as the last argument; without it the default comes back. -/
theorem ArgumentParser.parse_option_other_type_witness :
    ((ArgumentParser.construct ["prog", "--nx", "7", "--flag"]).parse_option
      (ValType.other "") "--flag" true).1 = Outcome.thrown "invalid type" ∧
    ((ArgumentParser.construct ["prog", "--nx", "7"]).parse_option
      (ValType.other "") "--flag" true).1 = Outcome.returned true :=
  ⟨(ArgumentParser.parse_option_other_type
      (ArgumentParser.construct ["prog", "--nx", "7", "--flag"]) "--flag" "" true).1.mpr
      (by decide),
    (ArgumentParser.parse_option_other_type
      (ArgumentParser.construct ["prog", "--nx", "7"]) "--flag" "" true).2 (by decide)⟩
